import Mathlib

/-!
Shallow embedding of the declaration-extraction front end found in
`hphp/hack/src/decl/direct_decl_smart_constructors.rs`, together with
theorems settling the specification claims about it.

Rust strings are modelled as `List Char` (named `Str`); arena references
disappear (values are compared structurally); `Option` models fallible
operations.  The top of a Rust `Vec` used as a stack is the *head* of the
corresponding Lean list.
-/

/-- Rust `&str` / `String`: modelled as a list of characters. -/
abbrev Str := List Char

/-- `str::starts_with` on our string model. -/
def strStartsWith (s p : Str) : Bool := p.isPrefixOf s

/-- `str::contains(char)` on our string model. -/
def strContains (s : Str) (c : Char) : Bool := s.contains c

/-- Source positions.  The Rust code builds `Pos` values from token offsets;
none of the claims depends on their internal structure, so a position is
modelled as a pair of byte offsets with `Pos.none` as the zero value
(mirroring `Pos::none()`). -/
structure Pos where
  startOff : Nat
  endOff : Nat
  deriving DecidableEq, Repr

/-- `Pos::none()`. -/
def Pos.none_ : Pos := ⟨0, 0⟩

/-- `Pos::is_none()`: in the Rust code the none position is a distinguished
value; here it is the zero pair. -/
def Pos.isNone (p : Pos) : Bool := p = Pos.none_

/-- `Pos::merge_without_checking_filename`: spans from the start of the first
to the end of the second position. -/
def Pos.mergeRaw (p1 p2 : Pos) : Pos := ⟨p1.startOff, p2.endOff⟩

/-- Positioned identifier, `oxidized::Id` / `PosId`. -/
abbrev PosId := Pos × Str

/-! ## Namespace builder (`NamespaceBuilder`, `NamespaceEnv`) -/

/-- `arena_collections::SMap`: a persistent string map.  Modelled as an
association list where `add` overwrites the binding for an existing key and
lookup takes the binding of the matching key. -/
abbrev SMap := List (Str × Str)

/-- `SMap::empty`. -/
def smapEmpty : SMap := []

/-- `SMap::add`: insert or overwrite the binding for `k`. -/
def smapAdd (m : SMap) (k v : Str) : SMap :=
  match m with
  | [] => [(k, v)]
  | (k', v') :: rest => if k' = k then (k, v) :: rest else (k', v') :: smapAdd rest k v

/-- `SMap::get`. -/
def smapGet (m : SMap) (k : Str) : Option Str :=
  match m with
  | [] => none
  | (k', v') :: rest => if k' = k then some v' else smapGet rest k

/-- One level of the namespace stack (`NamespaceEnv`). -/
structure NamespaceEnv where
  ns_uses : SMap
  class_uses : SMap
  fun_uses : SMap
  const_uses : SMap
  record_def_uses : SMap
  name : Option Str
  auto_ns_map : List (Str × Str)
  is_codegen : Bool
  disable_xhp_element_mangling : Bool
  deriving DecidableEq, Repr

/-- The namespace builder: a stack of `NamespaceEnv`s.  The top of the Rust
`Vec` (its last element) is the head of this list. -/
structure NamespaceBuilder where
  stack : List NamespaceEnv
  auto_ns_map : List (Str × Str)
  deriving DecidableEq, Repr

/-- `NamespaceBuilder::new_in`.  The `hh_autoimport::NAMESPACES` and
`hh_autoimport::TYPES` tables live in an external crate and are passed in as
parameters; each auto-imported alias maps to `"HH\" ++ alias`, and the
caller-supplied `auto_ns_map` entries are added afterwards (so they may
shadow the built-ins). -/
def NamespaceBuilder.new_in (autoNamespaces : List Str) (autoTypes : List Str)
    (auto_ns_map : List (Str × Str)) (disable_xhp_element_mangling : Bool) :
    NamespaceBuilder :=
  let ns_uses :=
    auto_ns_map.foldl (fun m p => smapAdd m p.1 p.2)
      (autoNamespaces.foldl (fun m a => smapAdd m a ("HH\\".toList ++ a)) smapEmpty)
  let class_uses :=
    autoTypes.foldl (fun m a => smapAdd m a ("HH\\".toList ++ a)) smapEmpty
  { stack := [{ ns_uses := ns_uses
                class_uses := class_uses
                fun_uses := smapEmpty
                const_uses := smapEmpty
                record_def_uses := smapEmpty
                name := none
                auto_ns_map := auto_ns_map
                is_codegen := false
                disable_xhp_element_mangling := disable_xhp_element_mangling }]
    auto_ns_map := auto_ns_map }

/-- `NamespaceBuilder::current_namespace`: the name of the top stack entry. -/
def NamespaceBuilder.current_namespace (b : NamespaceBuilder) : Option Str :=
  b.stack.head?.bind (·.name)

/-- `NamespaceBuilder::push_namespace`.  Clones the top environment, extends
the fully-qualified prefix when a name is given.  The Rust code unwraps the
top of the stack; the stack is never empty on any reachable state (see the
invariant theorems), so the empty case below is unreachable and modelled as
the identity. -/
def NamespaceBuilder.push_namespace (b : NamespaceBuilder) (name : Option Str) :
    NamespaceBuilder :=
  match b.stack with
  | [] => b
  | nsenv :: rest =>
    match name with
    | some n =>
      let fully_qualified : Str :=
        match nsenv.name with
        | none => n
        | some current => current ++ ('\\' :: n)
      { b with stack := { nsenv with name := some fully_qualified } :: nsenv :: rest }
    | none =>
      { b with stack := { nsenv with name := nsenv.name } :: nsenv :: rest }

/-- `NamespaceBuilder::pop_namespace`: pops only when in some namespace other
than the global one (stack length greater than one). -/
def NamespaceBuilder.pop_namespace (b : NamespaceBuilder) : NamespaceBuilder :=
  if b.stack.length > 1 then { b with stack := b.stack.tail } else b

/-- `NamespaceBuilder::pop_previous_namespace`.  Pops the two most recent
namespace levels and re-pushes the suffix of the last name relative to the
previous one.  The Rust code asserts `last.starts_with(previous)` and slices
`last[previous.len()+1..]`; the slice is modelled by `List.drop`, which is
total. -/
def NamespaceBuilder.pop_previous_namespace (b : NamespaceBuilder) : NamespaceBuilder :=
  if b.stack.length > 2 then
    match b.stack with
    | last :: previous :: rest =>
      let lastName := last.name.getD "\\".toList
      let previousName := previous.name.getD "\\".toList
      let name := lastName.drop (previousName.length + 1)
      NamespaceBuilder.push_namespace { b with stack := rest } (some name)
    | _ => b
  else b

/-! ### Helper lemmas about `SMap` and list folds -/

theorem smapGet_smapAdd_self (m : SMap) (k v : Str) :
    smapGet (smapAdd m k v) k = some v := by
  induction m with
  | nil => simp [smapAdd, smapGet]
  | cons p rest ih =>
    obtain ⟨k', v'⟩ := p
    by_cases h : k' = k <;> simp [smapAdd, smapGet, h, ih]

theorem smapGet_smapAdd_ne (m : SMap) (k v : Str) (a : Str) (h : a ≠ k) :
    smapGet (smapAdd m k v) a = smapGet m a := by
  have h' : ¬k = a := fun hh => h hh.symm
  induction m with
  | nil => simp [smapAdd, smapGet, h']
  | cons p rest ih =>
    obtain ⟨k', v'⟩ := p
    by_cases hk : k' = k
    · subst hk
      simp [smapAdd, smapGet, h']
    · simp [smapAdd, smapGet, hk, ih]

theorem smapGet_autoimport_fold_not_mem (f : Str → Str) (l : List Str) (m : SMap)
    (a : Str) (ha : a ∉ l) :
    smapGet (l.foldl (fun m x => smapAdd m x (f x)) m) a = smapGet m a := by
  induction l generalizing m with
  | nil => rfl
  | cons x xs ih =>
    have hax : a ≠ x := fun h => ha (h ▸ List.mem_cons_self x xs)
    have hxs : a ∉ xs := fun h => ha (List.mem_cons_of_mem x h)
    simp only [List.foldl_cons]
    rw [ih _ hxs, smapGet_smapAdd_ne _ _ _ _ hax]

theorem smapGet_autoimport_fold_mem (f : Str → Str) (l : List Str) (m : SMap)
    (a : Str) (ha : a ∈ l) :
    smapGet (l.foldl (fun m x => smapAdd m x (f x)) m) a = some (f a) := by
  induction l generalizing m with
  | nil => cases ha
  | cons x xs ih =>
    by_cases hxs : a ∈ xs
    · simpa only [List.foldl_cons] using ih _ hxs
    · have hax : a = x := by
        rcases List.mem_cons.mp ha with h | h
        · exact h
        · exact absurd h hxs
      subst hax
      simp only [List.foldl_cons]
      rw [smapGet_autoimport_fold_not_mem _ _ _ _ hxs, smapGet_smapAdd_self]

theorem smapGet_pairs_fold_not_mem (l : List (Str × Str)) (m : SMap) (a : Str)
    (ha : ∀ p ∈ l, p.1 ≠ a) :
    smapGet (l.foldl (fun m p => smapAdd m p.1 p.2) m) a = smapGet m a := by
  induction l generalizing m with
  | nil => rfl
  | cons p ps ih =>
    simp only [List.foldl_cons]
    rw [ih _ (fun q hq => ha q (List.mem_cons_of_mem p hq)),
      smapGet_smapAdd_ne _ _ _ _ (fun h => ha p (List.mem_cons_self p ps) h.symm)]

theorem drop_length_append_cons (l₁ l₂ : List Char) (c : Char) :
    (l₁ ++ c :: l₂).drop (l₁.length + 1) = l₂ := by
  induction l₁ with
  | nil => rfl
  | cons a t ih => simp [ih]

theorem drop_app_cons_app_cons (c Y X : List Char) (s t : Char) :
    (c ++ s :: (Y ++ t :: X)).drop (c.length + (Y.length + 1) + 1) = X := by
  have h1 : c ++ s :: (Y ++ t :: X) = (c ++ s :: Y) ++ t :: X := by simp
  have h2 : (c ++ s :: Y).length = c.length + (Y.length + 1) := by simp
  rw [h1, ← h2, drop_length_append_cons]

/-! ### Claim theorems for the namespace builder -/

theorem pop_namespace_push (b : NamespaceBuilder) (n : Option Str) (hb : b.stack ≠ []) :
    (b.push_namespace n).pop_namespace = b := by
  obtain ⟨stack, anm⟩ := b
  match stack, hb with
  | e :: rest, _ =>
    cases n <;>
      simp [NamespaceBuilder.push_namespace, NamespaceBuilder.pop_namespace]

theorem pop_previous_push_push (b : NamespaceBuilder) (X Y : Str) (hb : b.stack ≠ []) :
    ((b.push_namespace (some Y)).push_namespace (some X)).pop_previous_namespace
      = b.push_namespace (some X) := by
  obtain ⟨stack, anm⟩ := b
  match stack, hb with
  | e :: rest, _ =>
    cases he : e.name with
    | none =>
      simp [NamespaceBuilder.push_namespace, NamespaceBuilder.pop_previous_namespace,
        he, drop_length_append_cons]
    | some c =>
      simp [NamespaceBuilder.push_namespace, NamespaceBuilder.pop_previous_namespace,
        he, drop_length_append_cons, drop_app_cons_app_cons]

/-- C2: starting from any namespace-builder state (whose stack is non-empty, as
on every reachable state), for non-empty names `X` and `Y` the sequence
`push_namespace Y; pop_namespace; push_namespace X` leaves the builder with the
same current-namespace value as `push_namespace Y; push_namespace X;
pop_previous_namespace`. -/
theorem push_pop_push_current_eq_push_push_pop_previous
    (b : NamespaceBuilder) (X Y : Str) (hb : b.stack ≠ []) (_hX : X ≠ []) (_hY : Y ≠ []) :
    (((b.push_namespace (some Y)).pop_namespace).push_namespace (some X)).current_namespace
      = (((b.push_namespace (some Y)).push_namespace (some X)).pop_previous_namespace).current_namespace := by
  rw [pop_namespace_push b (some Y) hb, pop_previous_push_push b X Y hb]

/-- Witness for C2 at a concrete builder state and names `Y = "Y"`, `X = "X"`. -/
theorem push_pop_push_current_eq_push_push_pop_previous_witness :
    ((((NamespaceBuilder.new_in [] [] [] false).push_namespace (some "Y".toList)).pop_namespace.push_namespace
        (some "X".toList)).current_namespace
      = ((((NamespaceBuilder.new_in [] [] [] false).push_namespace (some "Y".toList)).push_namespace
        (some "X".toList)).pop_previous_namespace).current_namespace) :=
  push_pop_push_current_eq_push_push_pop_previous (NamespaceBuilder.new_in [] [] [] false)
    "X".toList "Y".toList (by simp [NamespaceBuilder.new_in]) (by simp) (by simp)

/-- C10: the namespace builder's stack is never empty.  `new_in` creates a
single global environment pre-loaded with the auto-import tables (each
auto-imported namespace/type alias maps to `HH\alias`, with the
caller-supplied alias table able to shadow namespaces); `pop_namespace` is a
no-op when only the global environment remains and pops exactly one entry
otherwise; `pop_previous_namespace` is a no-op unless at least two namespace
levels have been pushed above the global one; and every operation preserves
stack non-emptiness. -/
theorem namespace_builder_stack_never_empty :
    (∀ aN aT m d, (NamespaceBuilder.new_in aN aT m d).stack.length = 1) ∧
    (∀ aN aT m d a, a ∈ aT →
      ((NamespaceBuilder.new_in aN aT m d).stack.head?.map
        (fun e => smapGet e.class_uses a)) = some (some ("HH\\".toList ++ a))) ∧
    (∀ aN aT m d a, a ∈ aN → (∀ p ∈ m, p.1 ≠ a) →
      ((NamespaceBuilder.new_in aN aT m d).stack.head?.map
        (fun e => smapGet e.ns_uses a)) = some (some ("HH\\".toList ++ a))) ∧
    (∀ b : NamespaceBuilder, b.stack.length = 1 → b.pop_namespace = b) ∧
    (∀ b : NamespaceBuilder, b.stack.length > 1 →
      b.pop_namespace.stack.length = b.stack.length - 1) ∧
    (∀ b : NamespaceBuilder, b.stack.length ≤ 2 → b.pop_previous_namespace = b) ∧
    (∀ (b : NamespaceBuilder) (n : Option Str), b.stack ≠ [] →
      (b.push_namespace n).stack ≠ []) ∧
    (∀ b : NamespaceBuilder, b.stack ≠ [] → b.pop_namespace.stack ≠ []) ∧
    (∀ b : NamespaceBuilder, b.stack ≠ [] → b.pop_previous_namespace.stack ≠ []) := by
  refine ⟨?_, ?_, ?_, ?_, ?_, ?_, ?_, ?_, ?_⟩
  · intro aN aT m d; rfl
  · intro aN aT m d a ha
    simp [NamespaceBuilder.new_in, smapGet_autoimport_fold_mem _ _ _ _ ha]
  · intro aN aT m d a ha hm
    simp [NamespaceBuilder.new_in, smapGet_pairs_fold_not_mem _ _ _ hm,
      smapGet_autoimport_fold_mem _ _ _ _ ha]
  · intro b h
    simp [NamespaceBuilder.pop_namespace, h]
  · intro b h
    simp only [NamespaceBuilder.pop_namespace, if_pos h, List.length_tail]
  · intro b h
    have : ¬b.stack.length > 2 := by omega
    simp [NamespaceBuilder.pop_previous_namespace, this]
  · intro b n hb
    obtain ⟨stack, anm⟩ := b
    match stack, hb with
    | e :: rest, _ => cases n <;> simp [NamespaceBuilder.push_namespace]
  · intro b hb
    unfold NamespaceBuilder.pop_namespace
    split
    · next h =>
      have : b.stack.tail.length > 0 := by
        have := List.length_tail b.stack
        omega
      exact List.ne_nil_of_length_pos this
    · exact hb
  · intro b hb
    unfold NamespaceBuilder.pop_previous_namespace
    split
    · next h =>
      match hs : b.stack, h with
      | last :: previous :: e :: rest, _ =>
        simp only []
        cases hn : ({ b with stack := e :: rest } : NamespaceBuilder).stack with
        | nil => simp at hn
        | cons x xs =>
          cases (last.name.getD "\\".toList).drop ((previous.name.getD "\\".toList).length + 1) <;>
            simp [NamespaceBuilder.push_namespace]
    · exact hb

/-- Witness for C10: instantiates every hypothesis-bearing conjunct at
concrete inputs. -/
theorem namespace_builder_stack_never_empty_witness :
    (NamespaceBuilder.new_in [] [] [] false).stack.length = 1 ∧
    (((NamespaceBuilder.new_in [] ["Vector".toList] [] false).stack.head?.map
      (fun e => smapGet e.class_uses "Vector".toList))
        = some (some ("HH\\".toList ++ "Vector".toList))) ∧
    (((NamespaceBuilder.new_in ["Rx".toList] [] [] false).stack.head?.map
      (fun e => smapGet e.ns_uses "Rx".toList))
        = some (some ("HH\\".toList ++ "Rx".toList))) ∧
    (NamespaceBuilder.new_in [] [] [] false).pop_namespace
      = NamespaceBuilder.new_in [] [] [] false ∧
    ((NamespaceBuilder.new_in [] [] [] false).push_namespace
        (some "A".toList)).pop_namespace.stack.length
      = ((NamespaceBuilder.new_in [] [] [] false).push_namespace
        (some "A".toList)).stack.length - 1 ∧
    (NamespaceBuilder.new_in [] [] [] false).pop_previous_namespace
      = NamespaceBuilder.new_in [] [] [] false ∧
    ((NamespaceBuilder.new_in [] [] [] false).push_namespace none).stack ≠ [] ∧
    (NamespaceBuilder.new_in [] [] [] false).pop_namespace.stack ≠ [] ∧
    (NamespaceBuilder.new_in [] [] [] false).pop_previous_namespace.stack ≠ [] := by
  obtain ⟨h1, h2, h3, h4, h5, h6, h7, h8, h9⟩ := namespace_builder_stack_never_empty
  exact ⟨h1 [] [] [] false,
    h2 [] ["Vector".toList] [] false "Vector".toList (by simp),
    h3 ["Rx".toList] [] [] false "Rx".toList (by simp) (by simp),
    h4 _ rfl,
    h5 _ (by simp [NamespaceBuilder.new_in, NamespaceBuilder.push_namespace]),
    h6 _ (by simp [NamespaceBuilder.new_in]),
    h7 _ none (by simp [NamespaceBuilder.new_in]),
    h8 _ (by simp [NamespaceBuilder.new_in]),
    h9 _ (by simp [NamespaceBuilder.new_in])⟩

/-! ## Declaration type model (`oxidized_by_ref::typing_defs`) -/

inductive Variance
  | Covariant
  | Contravariant
  | Invariant
  deriving DecidableEq, Repr

inductive ReifyKind
  | Erased
  | SoftReified
  | Reified
  deriving DecidableEq, Repr

inductive ConstraintKind
  | ConstraintAs
  | ConstraintEq
  | ConstraintSuper
  deriving DecidableEq, Repr

inductive Enforcement
  | Unenforced
  | Enforced
  deriving DecidableEq, Repr

/-- `aast::Tprim` (the primitive types used by the embedded code paths). -/
inductive Prim
  | Tnull
  | Tvoid
  | Tint
  | Tbool
  | Tfloat
  | Tstring
  | Tarraykey
  | Tnoreturn
  deriving DecidableEq, Repr

inductive IfcFunDecl
  | FDPolicied (s : Option Str)
  | FDInferFlows
  deriving DecidableEq, Repr

inductive FunKind
  | FSync
  | FAsync
  | FGenerator
  | FAsyncGenerator
  deriving DecidableEq, Repr

/-- The `Reason` provenance tags produced by the embedded code paths
(`Reason::hint`, `Reason::witness_from_decl`, `Reason::RretFunKindFromDecl`,
`Reason::RvecOrDictKey`, `Reason::none`). -/
inductive Reason
  | hint (p : Pos)
  | witnessFromDecl (p : Pos)
  | RretFunKindFromDecl (p : Pos) (k : FunKind)
  | RvecOrDictKey (p : Pos)
  | noReason
  deriving DecidableEq, Repr

/-- `Reason::pos()`. -/
def Reason.pos : Reason → Option Pos
  | .hint p => some p
  | .witnessFromDecl p => some p
  | .RretFunKindFromDecl p _ => some p
  | .RvecOrDictKey p => some p
  | .noReason => none

mutual
/-- `Ty<'a>`: a reason paired with a type node. -/
inductive Ty where
  | mk (reason : Reason) (ty : Ty_)

/-- `Ty_<'a>`, restricted to the variants the embedded code paths construct
or inspect. -/
inductive Ty_ where
  | Tany
  | Tprim (p : Prim)
  | Tapply (id : PosId) (targs : List Ty)
  | Tgeneric (name : Str) (targs : List Ty)
  | Taccess (root : Ty) (cst : PosId)
  | Tintersection (tys : List Ty)
  | Tunion (tys : List Ty)
  | Toption (ty : Ty)
  | Tlike (ty : Ty)
  | Tfun (ft : FunType)
  | Tnonnull
  | Tdynamic
  | Terr
  | Tthis
  | TvecOrDict (k : Ty) (v : Ty)

/-- `Tparam<'a>`. -/
inductive Tparam where
  | mk (variance : Variance) (name : PosId) (tparams : List Tparam)
       (constraints : List (ConstraintKind × Ty)) (reified : ReifyKind)
       (user_attributes : List (PosId × List Str))

/-- `WhereConstraint<'a>`. -/
inductive WhereConstraint where
  | mk (lhs : Ty) (op : ConstraintKind) (rhs : Ty)

/-- `CapTy` / `CapDefaults`. -/
inductive Capability where
  | CapDefaults (p : Pos)
  | CapTy (ty : Ty)

/-- `FunImplicitParams<'a>`. -/
inductive FunImplicitParams where
  | mk (capability : Capability)

/-- `PossiblyEnforcedTy<'a>`. -/
inductive PossiblyEnforcedTy where
  | mk (enforced : Enforcement) (type_ : Ty)

/-- `FunParam<'a>` (flags collapsed to a number; they are copied wholesale
by every embedded code path). -/
inductive FunParam where
  | mk (pos : Pos) (name : Option Str) (type_ : PossiblyEnforcedTy) (flags : Nat)

inductive FunArity where
  | Fstandard
  | Fvariadic (param : FunParam)

/-- `FunType<'a>` (flags collapsed to a number). -/
inductive FunType where
  | mk (arity : FunArity) (tparams : List Tparam) (where_constraints : List WhereConstraint)
       (params : List FunParam) (implicit_params : FunImplicitParams)
       (ret : PossiblyEnforcedTy) (flags : Nat) (ifc_decl : IfcFunDecl)
end

def Ty.reason : Ty → Reason
  | .mk r _ => r

def Ty.ty_ : Ty → Ty_
  | .mk _ t => t

/-- `Ty::get_pos()`: the position of the reason. -/
def Ty.get_pos (t : Ty) : Option Pos := t.reason.pos

def Tparam.nameId : Tparam → PosId
  | .mk _ n _ _ _ _ => n

def Tparam.varianceOf : Tparam → Variance
  | .mk v _ _ _ _ _ => v

def Tparam.tparamsOf : Tparam → List Tparam
  | .mk _ _ tps _ _ _ => tps

def Tparam.constraintsOf : Tparam → List (ConstraintKind × Ty)
  | .mk _ _ _ cs _ _ => cs

def Tparam.reifiedOf : Tparam → ReifyKind
  | .mk _ _ _ _ r _ => r

def Tparam.userAttributesOf : Tparam → List (PosId × List Str)
  | .mk _ _ _ _ _ uas => uas

def PossiblyEnforcedTy.type_ : PossiblyEnforcedTy → Ty
  | .mk _ t => t

def PossiblyEnforcedTy.enforcedOf : PossiblyEnforcedTy → Enforcement
  | .mk e _ => e

def FunParam.pos : FunParam → Pos
  | .mk p _ _ _ => p

def FunParam.name : FunParam → Option Str
  | .mk _ n _ _ => n

def FunParam.typeOf : FunParam → PossiblyEnforcedTy
  | .mk _ _ t _ => t

def FunImplicitParams.capability : FunImplicitParams → Capability
  | .mk c => c

/-- `TANY_` / `TANY`: the `any` type with no reason. -/
def TANY : Ty := Ty.mk Reason.noReason Ty_.Tany

/-- `tany_with_pos`. -/
def tany_with_pos (pos : Pos) : Ty := Ty.mk (Reason.witnessFromDecl pos) Ty_.Tany

/-! ## Effect-polymorphism rewriter (`rewrite_effect_polymorphism`) -/

/-- `ctx_generic_for_fun`: `T/[ctx {name}]`. -/
def ctx_generic_for_fun (name : Str) : Str :=
  "T/[ctx ".toList ++ name ++ "]".toList

/-- `ctx_generic_for_dependent`: `T/[{name}::{cst}]`. -/
def ctx_generic_for_dependent (name cst : Str) : Str :=
  "T/[".toList ++ name ++ "::".toList ++ cst ++ "]".toList

/-- `taccess_root_is_generic`. -/
def taccess_root_is_generic : Ty → Bool
  | .mk _ (.Tgeneric _ []) => true
  | .mk _ (.Taccess t _) => taccess_root_is_generic t
  | _ => false

/-- `ctx_generic_for_generic_taccess_inner`.  The catch-all case is a
`panic!` in the Rust code and is unreachable under the
`taccess_root_is_generic` guard on every call site. -/
def ctx_generic_for_generic_taccess_inner : Ty → Str → Str
  | .mk _ (.Tgeneric name []), cst => name ++ "::".toList ++ cst
  | .mk _ (.Taccess ty c), cst =>
    ctx_generic_for_generic_taccess_inner ty c.2 ++ "::".toList ++ cst
  | _, cst => "::".toList ++ cst

/-- `ctx_generic_for_generic_taccess`: `T/[{root}::{cst}]`. -/
def ctx_generic_for_generic_taccess (ty : Ty) (cst : Str) : Str :=
  "T/[".toList ++ ctx_generic_for_generic_taccess_inner ty cst ++ "]".toList

/-- `has_polymorphic_context`: a context list is polymorphic when some entry
is a bare `Tapply` with no type arguments whose name contains `$`
(`Hfun_context`, i.e. `ctx $f`), a type-constant projection off such an
apply (`$p::C`), or a projection whose root is a generic parameter. -/
def has_polymorphic_context (contexts : List Ty) : Bool :=
  contexts.any fun ty =>
    match ty with
    | .mk _ (.Tapply root []) => strContains root.2 '$'
    | .mk _ (.Taccess (.mk _ (.Tapply root [])) _) => strContains root.2 '$'
    | .mk _ (.Taccess t _) => taccess_root_is_generic t
    | _ => false

/-- The `tp` closure of `rewrite_effect_polymorphism`: every synthesized type
parameter is invariant, erased, carries no nested type parameters and no user
attributes. -/
def tp_synth (name : PosId) (constraints : List (ConstraintKind × Ty)) : Tparam :=
  Tparam.mk Variance.Invariant name [] constraints ReifyKind.Erased []

/-- The guard of `rewrite_arg_ctx`'s first match arm: the parameter's type
hint is a type parameter introduced in this function declaration. -/
def param_type_is_declared_tparam (tparams : List Tparam) (ty : Ty) : Bool :=
  match ty with
  | .mk _ (.Tgeneric type_name _) => tparams.any (fun tp => tp.nameId.2 = type_name)
  | _ => false

/-- `rewrite_fun_ctx`: for a context `ctx $f`, when `$f`'s type is a function
type whose capability is a wildcard `Tapply "_"` placeholder (possibly inside
a singleton intersection), synthesize `T/[ctx $f]` and substitute it for the
placeholder.  Returns the rewritten type and the list of type parameters the
Rust code pushes. -/
def rewrite_fun_ctx (ty : Ty) (param_name : Str) : Ty × List Tparam :=
  match ty with
  | .mk tyr (.Tfun ft) =>
    match ft with
    | .mk arity tps wcs ps ips ret flags ifc =>
      let capOpt : Option Ty :=
        match ips.capability with
        | .CapTy (.mk _ (.Tintersection [c])) => some c
        | .CapTy c => some c
        | _ => none
      match capOpt with
      | none => (ty, [])
      | some cap_ty =>
        match cap_ty with
        | .mk capr (.Tapply (pos, n) _) =>
          if n = "_".toList then
            let name := ctx_generic_for_fun param_name
            let tparam := tp_synth (pos, name) []
            let cap_ty' := Ty.mk capr (.Tgeneric name [])
            (Ty.mk tyr (.Tfun (.mk arity tps wcs ps
              (.mk (.CapTy cap_ty')) ret flags ifc)), [tparam])
          else (ty, [])
        | _ => (ty, [])
  | _ => (ty, [])

/-- `rewrite_arg_ctx`: for a context `$g::C`, unless `$g`'s type hint is a
type parameter already declared on the function, synthesize `T/$g as G` and
rewrite the hint to `T/$g`; then synthesize the unconstrained `T/[$g::C]`
together with the where-constraint `T/[$g::C] = T/$g::C`.  Returns the
rewritten parameter type, the pushed type parameters (in push order) and the
pushed where-constraints. -/
def rewrite_arg_ctx (tparams : List Tparam) (ty : Ty) (param_pos : Pos)
    (name : Str) (context_reason : Reason) (cst : PosId) :
    Ty × List Tparam × List WhereConstraint :=
  let rp : Ty × List Tparam :=
    if param_type_is_declared_tparam tparams ty then (ty, ([] : List Tparam))
    else
      let id : PosId := (param_pos, "T/".toList ++ name)
      (Ty.mk (.hint param_pos) (.Tgeneric id.2 []),
        [tp_synth id [(ConstraintKind.ConstraintAs, ty)]])
  let rewritten_ty := rp.1
  let pushed1 := rp.2
  let ty2 := Ty.mk context_reason rewritten_ty.ty_
  let right := Ty.mk context_reason (.Taccess ty2 cst)
  let left_id : PosId :=
    ((Reason.pos context_reason).getD Pos.none_, ctx_generic_for_dependent name cst.2)
  let left := Ty.mk context_reason (.Tgeneric left_id.2 [])
  (rewritten_ty, pushed1 ++ [tp_synth left_id []],
    [WhereConstraint.mk left ConstraintKind.ConstraintEq right])

/-- The `Tlike`/`Toption` unwrapping applied to a parameter's stored type
before rewriting it (this dispatch appears twice, inlined, in the Rust
`for context_ty in context_tys` loop). -/
def rewrite_param_hint (rw : Ty → Ty × List Tparam × List WhereConstraint)
    (param_ty : Ty) : Ty × List Tparam × List WhereConstraint :=
  match param_ty with
  | .mk lr (.Tlike (.mk r (.Toption tinner))) =>
    let res := rw tinner
    (Ty.mk lr (.Tlike (Ty.mk r (.Toption res.1))), res.2)
  | .mk lr (.Tlike inner) =>
    let res := rw inner
    (Ty.mk lr (.Tlike res.1), res.2)
  | .mk orr (.Toption inner) =>
    let res := rw inner
    (Ty.mk orr (.Toption res.1), res.2)
  | _ => rw param_ty

/-- The `ty_by_param` table (`BTreeMap<&str, (Ty, &Pos)>`), modelled as an
association list; `collect` keeps the last binding for a duplicate key,
which `tbpUpsert` reproduces. -/
abbrev TyByParam := List (Str × (Ty × Pos))

def tbpGet (m : TyByParam) (k : Str) : Option (Ty × Pos) :=
  match m with
  | [] => none
  | (k', v) :: rest => if k' = k then some v else tbpGet rest k

def tbpUpsert (m : TyByParam) (k : Str) (v : Ty × Pos) : TyByParam :=
  match m with
  | [] => [(k, v)]
  | (k', v') :: rest => if k' = k then (k, v) :: rest else (k', v') :: tbpUpsert rest k v

/-- `get_mut` followed by assigning the type component. -/
def tbpSetTy (m : TyByParam) (k : Str) (t : Ty) : TyByParam :=
  match m with
  | [] => []
  | (k', (t', p)) :: rest =>
    if k' = k then (k', (t, p)) :: rest else (k', (t', p)) :: tbpSetTy rest k t

/-- Mutable state threaded through the `for context_ty in context_tys` loop
of `rewrite_effect_polymorphism`. -/
structure RewriteAcc where
  tparams : List Tparam
  where_constraints : List WhereConstraint
  ty_by_param : TyByParam

/-- One iteration of the `for context_ty in context_tys` loop. -/
def rewrite_context_step (acc : RewriteAcc) (context_ty : Ty) : RewriteAcc :=
  match context_ty with
  | .mk _ (.Tapply (_, name) _) =>
    -- `Hfun_context` in the AST: `ctx $f`.
    if strStartsWith name "$".toList then
      match tbpGet acc.ty_by_param name with
      | some (param_ty, _) =>
        let res :=
          rewrite_param_hint (fun t =>
            ((rewrite_fun_ctx t name).1, (rewrite_fun_ctx t name).2, [])) param_ty
        { acc with tparams := acc.tparams ++ res.2.1
                   ty_by_param := tbpSetTy acc.ty_by_param name res.1 }
      | none => acc
    else acc
  | .mk cr (.Taccess (.mk _ (.Tapply (_, name) _)) cst) =>
    match tbpGet acc.ty_by_param name with
    | some (param_ty, param_pos) =>
      let res :=
        rewrite_param_hint
          (fun t => rewrite_arg_ctx acc.tparams t param_pos name cr cst) param_ty
      { acc with tparams := acc.tparams ++ res.2.1
                 where_constraints := acc.where_constraints ++ res.2.2
                 ty_by_param := tbpSetTy acc.ty_by_param name res.1 }
    | none => acc
  | .mk cr (.Taccess t cst) =>
    if taccess_root_is_generic t then
      let left_id : PosId :=
        ((Reason.pos cr).getD Pos.none_, ctx_generic_for_generic_taccess t cst.2)
      let left := Ty.mk cr (.Tgeneric left_id.2 [])
      { acc with tparams := acc.tparams ++ [tp_synth left_id []]
                 where_constraints := acc.where_constraints ++
                   [WhereConstraint.mk left ConstraintKind.ConstraintEq
                     (Ty.mk cr (.Taccess t cst))] }
    else acc
  | _ => acc

/-- The guarded match opening `rewrite_effect_polymorphism`, which decides
whether the capability has a polymorphic context and extracts `(cap_reason,
context_tys)`.  The nested `else if` mirrors Rust falling through a failed
match guard to the next arm. -/
def polymorphic_context_info (implicit_params : FunImplicitParams) :
    Option (Reason × List Ty) :=
  match implicit_params.capability with
  | .CapTy (.mk r (.Tintersection tys)) =>
    if has_polymorphic_context tys then some (r, tys)
    else if has_polymorphic_context [Ty.mk r (.Tintersection tys)] then
      some (r, [Ty.mk r (.Tintersection tys)])
    else none
  | .CapTy ty =>
    if has_polymorphic_context [ty] then some (ty.reason, [ty]) else none
  | _ => none

/-- `rewrite_effect_polymorphism`.  One deviation from the Rust text: when a
parameter's rewritten type is structurally equal to its old type, the Rust
code skips re-allocating the `FunParam` (`param.type_.type_ != type_`); since
values here are compared structurally, the skipped re-allocation yields the
same value as the rebuild, so the rebuild is done unconditionally. -/
def rewrite_effect_polymorphism (params : List FunParam) (tparams : List Tparam)
    (implicit_params : FunImplicitParams)
    (where_constraints : List WhereConstraint) :
    List FunParam × List Tparam × FunImplicitParams × List WhereConstraint :=
  match polymorphic_context_info implicit_params with
  | none => (params, tparams, implicit_params, where_constraints)
  | some (cap_reason, context_tys) =>
    let ty_by_param : TyByParam := params.foldl (fun m p =>
      match p.name with
      | some n => tbpUpsert m n (p.typeOf.type_, p.pos)
      | none => m) []
    let acc := context_tys.foldl rewrite_context_step
      ⟨tparams, where_constraints, ty_by_param⟩
    let params' := params.map (fun p =>
      match p.name with
      | none => p
      | some name =>
        match tbpGet acc.ty_by_param name with
        | some (type_, _) =>
          FunParam.mk p.pos (some name)
            (PossiblyEnforcedTy.mk p.typeOf.enforcedOf type_) (match p with | .mk _ _ _ fl => fl)
        | none => p)
    let context_tys' := context_tys.map (fun ty =>
      match ty with
      | .mk r (.Tapply (_, name) []) =>
        if strStartsWith name "$".toList then
          Ty.mk r (.Tgeneric (ctx_generic_for_fun name) [])
        else ty
      | .mk r (.Taccess (.mk _ (.Tapply (_, name) [])) cst) =>
        if strStartsWith name "$".toList then
          Ty.mk r (.Tgeneric (ctx_generic_for_dependent name cst.2) [])
        else ty
      | .mk r (.Taccess t cst) =>
        if taccess_root_is_generic t then
          Ty.mk r (.Tgeneric (ctx_generic_for_generic_taccess t cst.2) [])
        else ty
      | _ => ty)
    let cap_ty := match context_tys' with
      | [ty] => ty
      | _ => Ty.mk cap_reason (.Tintersection context_tys')
    (params', acc.tparams, FunImplicitParams.mk (.CapTy cap_ty),
      acc.where_constraints)

/-- The list of context entries carried by a capability: the members of an
intersection capability, the single type of any other `CapTy`, and nothing
for `CapDefaults`. -/
def capability_context_list : FunImplicitParams → List Ty
  | .mk (.CapTy (.mk _ (.Tintersection tys))) => tys
  | .mk (.CapTy ty) => [ty]
  | .mk (.CapDefaults _) => []

theorem has_polymorphic_context_intersection_singleton (r : Reason) (tys : List Ty) :
    has_polymorphic_context [Ty.mk r (.Tintersection tys)] = false := rfl

/-- C6: when none of a function's context entries is parameter-dependent
(no `ctx $p`, no `$p::C` rooted in a parameter variable, no projection rooted
in a generic parameter — i.e. `has_polymorphic_context` is false on the
capability's context list), `rewrite_effect_polymorphism` returns the
parameter list, type-parameter list, implicit parameters and
where-constraints unchanged. -/
theorem rewrite_effect_polymorphism_nonpolymorphic_id
    (params : List FunParam) (tparams : List Tparam)
    (implicit_params : FunImplicitParams) (where_constraints : List WhereConstraint)
    (h : has_polymorphic_context (capability_context_list implicit_params) = false) :
    rewrite_effect_polymorphism params tparams implicit_params where_constraints
      = (params, tparams, implicit_params, where_constraints) := by
  obtain ⟨cap⟩ := implicit_params
  cases cap with
  | CapDefaults p => rfl
  | CapTy ty =>
    obtain ⟨r, ty_⟩ := ty
    cases ty_ <;>
      simp_all [rewrite_effect_polymorphism, polymorphic_context_info,
        capability_context_list, FunImplicitParams.capability,
        has_polymorphic_context_intersection_singleton]

/-- Witness for C6: a function whose only context is the non-parameter
`Tapply "C"` capability is returned unchanged. -/
theorem rewrite_effect_polymorphism_nonpolymorphic_id_witness :
    rewrite_effect_polymorphism []
      [tp_synth (Pos.none_, "T".toList) []]
      (FunImplicitParams.mk (.CapTy (Ty.mk Reason.noReason
        (.Tapply (Pos.none_, "C".toList) []))))
      []
      = ([], [tp_synth (Pos.none_, "T".toList) []],
         FunImplicitParams.mk (.CapTy (Ty.mk Reason.noReason
           (.Tapply (Pos.none_, "C".toList) []))), []) :=
  rewrite_effect_polymorphism_nonpolymorphic_id _ _ _ _ (by
    simp [capability_context_list, has_polymorphic_context, strContains])

theorem startsWith_dollar_contains (g : Str) (h : strStartsWith g "$".toList = true) :
    strContains g '$' = true := by
  cases g with
  | nil => simp [strStartsWith, List.isPrefixOf] at h
  | cons c cs =>
    simp only [strStartsWith, List.isPrefixOf, Bool.and_eq_true, beq_iff_eq] at h
    simp [strContains, List.contains_cons]
    exact Or.inl h.1

/-- A type whose outermost node is an option or like wrapper (those receive
special treatment in the parameter-rewrite dispatch). -/
def is_option_or_like : Ty → Bool
  | .mk _ (.Toption _) => true
  | .mk _ (.Tlike _) => true
  | _ => false

theorem rewrite_param_hint_plain (rw : Ty → Ty × List Tparam × List WhereConstraint)
    (t : Ty) (h : is_option_or_like t = false) :
    rewrite_param_hint rw t = rw t := by
  obtain ⟨r, t_⟩ := t
  cases t_ <;> first
    | rfl
    | simp [is_option_or_like] at h

/-- C1: for a function with one parameter `$g` of declared type `G` (not an
option/like wrapper and not a type parameter of the function) and a single
context entry `$g::C`, the rewriter adds the type parameter `T/$g as G`
(invariant, erased, one `as`-constraint), rewrites `$g`'s declared type to
the generic reference `T/$g`, adds the unconstrained type parameter
`T/[$g::C]`, adds the where-constraint `T/[$g::C] = T/$g::C`, and replaces
the context entry with a generic reference to `T/[$g::C]`; the number of
function parameters is unchanged (the return type is not an input of the
rewriter, hence unchanged by construction). -/
theorem rewrite_effect_polymorphism_dependent_context
    (g C : Str) (G : Ty) (gpos vpos cpos : Pos) (cr ar : Reason)
    (enf : Enforcement) (fl : Nat) (tps0 : List Tparam) (wcs0 : List WhereConstraint)
    (hg : strStartsWith g "$".toList = true)
    (hG1 : param_type_is_declared_tparam tps0 G = false)
    (hG2 : is_option_or_like G = false) :
    rewrite_effect_polymorphism
      [FunParam.mk gpos (some g) (PossiblyEnforcedTy.mk enf G) fl]
      tps0
      (FunImplicitParams.mk (.CapTy (Ty.mk cr
        (.Taccess (Ty.mk ar (.Tapply (vpos, g) [])) (cpos, C)))))
      wcs0
      = ([FunParam.mk gpos (some g)
            (PossiblyEnforcedTy.mk enf
              (Ty.mk (.hint gpos) (.Tgeneric ("T/".toList ++ g) []))) fl],
         tps0 ++
           [Tparam.mk .Invariant (gpos, "T/".toList ++ g) []
              [(ConstraintKind.ConstraintAs, G)] .Erased [],
            Tparam.mk .Invariant ((Reason.pos cr).getD Pos.none_,
                ctx_generic_for_dependent g C) [] [] .Erased []],
         FunImplicitParams.mk (.CapTy (Ty.mk cr
           (.Tgeneric (ctx_generic_for_dependent g C) []))),
         wcs0 ++
           [WhereConstraint.mk
              (Ty.mk cr (.Tgeneric (ctx_generic_for_dependent g C) []))
              ConstraintKind.ConstraintEq
              (Ty.mk cr (.Taccess
                 (Ty.mk cr (.Tgeneric ("T/".toList ++ g) [])) (cpos, C)))]) := by
  have hg' : strStartsWith g ['$'] = true := hg
  have hc : strContains g '$' = true := startsWith_dollar_contains g hg
  simp [rewrite_effect_polymorphism, polymorphic_context_info,
    FunImplicitParams.capability, Ty.reason, has_polymorphic_context,
    hc, hg, hg',
    rewrite_context_step, rewrite_param_hint_plain _ G hG2,
    rewrite_arg_ctx, hG1, tp_synth, tbpGet, tbpUpsert, tbpSetTy,
    FunParam.name, FunParam.pos, FunParam.typeOf, PossiblyEnforcedTy.type_,
    PossiblyEnforcedTy.enforcedOf, Ty.ty_]

/-- Witness for C1: `function f(G $g)[$g::C]: void` with concrete positions. -/
theorem rewrite_effect_polymorphism_dependent_context_witness :
    strStartsWith "$g".toList "$".toList = true ∧
    rewrite_effect_polymorphism
      [FunParam.mk (Pos.mk 3 4) (some "$g".toList)
        (PossiblyEnforcedTy.mk .Unenforced
          (Ty.mk (.hint (Pos.mk 1 2)) (.Tapply (Pos.mk 1 2, "G".toList) []))) 0]
      []
      (FunImplicitParams.mk (.CapTy (Ty.mk (.hint (Pos.mk 9 10))
        (.Taccess (Ty.mk (.hint (Pos.mk 5 6)) (.Tapply (Pos.mk 5 6, "$g".toList) []))
          (Pos.mk 7 8, "C".toList)))))
      []
      = ([FunParam.mk (Pos.mk 3 4) (some "$g".toList)
            (PossiblyEnforcedTy.mk .Unenforced
              (Ty.mk (.hint (Pos.mk 3 4))
                (.Tgeneric ("T/".toList ++ "$g".toList) []))) 0],
         [] ++
           [Tparam.mk .Invariant (Pos.mk 3 4, "T/".toList ++ "$g".toList) []
              [(ConstraintKind.ConstraintAs,
                Ty.mk (.hint (Pos.mk 1 2)) (.Tapply (Pos.mk 1 2, "G".toList) []))] .Erased [],
            Tparam.mk .Invariant
              ((Reason.pos (.hint (Pos.mk 9 10))).getD Pos.none_,
                ctx_generic_for_dependent "$g".toList "C".toList) [] [] .Erased []],
         FunImplicitParams.mk (.CapTy (Ty.mk (.hint (Pos.mk 9 10))
           (.Tgeneric (ctx_generic_for_dependent "$g".toList "C".toList) []))),
         [] ++
           [WhereConstraint.mk
              (Ty.mk (.hint (Pos.mk 9 10))
                (.Tgeneric (ctx_generic_for_dependent "$g".toList "C".toList) []))
              ConstraintKind.ConstraintEq
              (Ty.mk (.hint (Pos.mk 9 10))
                (.Taccess (Ty.mk (.hint (Pos.mk 9 10))
                  (.Tgeneric ("T/".toList ++ "$g".toList) [])) (Pos.mk 7 8, "C".toList)))]) :=
  ⟨rfl, rewrite_effect_polymorphism_dependent_context "$g".toList "C".toList
    (Ty.mk (.hint (Pos.mk 1 2)) (.Tapply (Pos.mk 1 2, "G".toList) []))
    (Pos.mk 3 4) (Pos.mk 5 6) (Pos.mk 7 8)
    (.hint (Pos.mk 9 10)) (.hint (Pos.mk 5 6)) .Unenforced 0 [] []
    rfl rfl rfl⟩

/-- The shape shared by every type parameter the rewriter synthesizes:
invariant variance, erased (unreified), no user attributes, no nested type
parameters, and either no constraints or a single `as`-constraint. -/
def synth_tparam_ok (tp : Tparam) : Prop :=
  tp.varianceOf = .Invariant ∧ tp.reifiedOf = .Erased ∧
  tp.tparamsOf = [] ∧ tp.userAttributesOf = [] ∧
  (tp.constraintsOf = [] ∨
    ∃ t, tp.constraintsOf = [(ConstraintKind.ConstraintAs, t)])

theorem tp_synth_ok_nil (id : PosId) : synth_tparam_ok (tp_synth id []) := by
  simp [tp_synth, synth_tparam_ok, Tparam.varianceOf, Tparam.reifiedOf,
    Tparam.tparamsOf, Tparam.userAttributesOf, Tparam.constraintsOf]

theorem tp_synth_ok_as (id : PosId) (t : Ty) :
    synth_tparam_ok (tp_synth id [(ConstraintKind.ConstraintAs, t)]) := by
  refine ⟨rfl, rfl, rfl, rfl, Or.inr ⟨t, rfl⟩⟩

theorem rewrite_fun_ctx_pushed_ok (ty : Ty) (n : Str) :
    ∀ tp ∈ (rewrite_fun_ctx ty n).2, synth_tparam_ok tp := by
  intro tp htp
  obtain ⟨tyr, ty_⟩ := ty
  cases ty_ <;> try simp [rewrite_fun_ctx] at htp
  case Tfun ft =>
    obtain ⟨arity, tps, wcs, ps, ips, ret, flags, ifc⟩ := ft
    obtain ⟨cap⟩ := ips
    simp only [rewrite_fun_ctx, FunImplicitParams.capability] at htp
    repeat' split at htp
    all_goals
      first
        | (rcases List.mem_singleton.mp htp with rfl; exact tp_synth_ok_nil _)
        | cases htp

theorem rewrite_arg_ctx_pushed_ok (tps : List Tparam) (ty : Ty) (pp : Pos)
    (n : Str) (cr : Reason) (cst : PosId) :
    ∀ tp ∈ (rewrite_arg_ctx tps ty pp n cr cst).2.1, synth_tparam_ok tp := by
  intro tp htp
  unfold rewrite_arg_ctx at htp
  split at htp
  · simp only [List.nil_append, List.mem_singleton] at htp
    subst htp
    exact tp_synth_ok_nil _
  · simp only [List.cons_append, List.nil_append, List.mem_cons,
      List.mem_singleton, List.not_mem_nil, or_false] at htp
    rcases htp with rfl | rfl
    · exact tp_synth_ok_as _ _
    · exact tp_synth_ok_nil _

theorem rewrite_param_hint_tparams_ok
    (rw : Ty → Ty × List Tparam × List WhereConstraint)
    (hok : ∀ u tp, tp ∈ (rw u).2.1 → synth_tparam_ok tp)
    (t : Ty) : ∀ tp ∈ (rewrite_param_hint rw t).2.1, synth_tparam_ok tp := by
  intro tp htp
  unfold rewrite_param_hint at htp
  split at htp <;> exact hok _ tp htp

theorem rewrite_param_hint_wcs
    (rw : Ty → Ty × List Tparam × List WhereConstraint)
    (P : List WhereConstraint → Prop)
    (hok : ∀ u, P (rw u).2.2)
    (t : Ty) : P (rewrite_param_hint rw t).2.2 := by
  unfold rewrite_param_hint
  split <;> exact hok _

theorem rewrite_context_step_tparams (acc : RewriteAcc) (ctx : Ty) :
    ∀ tp ∈ (rewrite_context_step acc ctx).tparams,
      tp ∈ acc.tparams ∨ synth_tparam_ok tp := by
  intro tp htp
  unfold rewrite_context_step at htp
  repeat' split at htp
  all_goals try exact Or.inl htp
  all_goals rcases List.mem_append.mp htp with h | h
  all_goals try exact Or.inl h
  all_goals
    first
      | exact Or.inr (rewrite_param_hint_tparams_ok _
          (fun u tp' h' => rewrite_fun_ctx_pushed_ok u _ tp' h') _ tp h)
      | exact Or.inr (rewrite_param_hint_tparams_ok _
          (fun u tp' h' => rewrite_arg_ctx_pushed_ok _ u _ _ _ _ tp' h') _ tp h)
      | (rcases List.mem_singleton.mp h with rfl; exact Or.inr (tp_synth_ok_nil _))

theorem foldl_rewrite_context_step_tparams (l : List Ty) (acc : RewriteAcc) :
    ∀ tp ∈ (l.foldl rewrite_context_step acc).tparams,
      tp ∈ acc.tparams ∨ synth_tparam_ok tp := by
  induction l generalizing acc with
  | nil => intro tp h; exact Or.inl h
  | cons c cs ih =>
    intro tp h
    rcases ih (rewrite_context_step acc c) tp h with h' | h'
    · exact rewrite_context_step_tparams acc c tp h'
    · exact Or.inr h'

/-- Concrete scenario pieces for the rewriter theorems: `G $g` with context
`$g::C`, a function-typed `$f` with context `ctx $f`, and a generic-rooted
projection context `T::C`. -/
def demoG : Ty := Ty.mk (.hint (Pos.mk 1 2)) (.Tapply (Pos.mk 1 2, "G".toList) [])

def demoGParam : FunParam :=
  FunParam.mk (Pos.mk 3 4) (some "$g".toList) (PossiblyEnforcedTy.mk .Unenforced demoG) 0

def demoArgCtxCap : FunImplicitParams :=
  FunImplicitParams.mk (.CapTy (Ty.mk (.hint (Pos.mk 9 10))
    (.Taccess (Ty.mk (.hint (Pos.mk 5 6)) (.Tapply (Pos.mk 5 6, "$g".toList) []))
      (Pos.mk 7 8, "C".toList))))

def demoFunParamTy : Ty :=
  Ty.mk (.hint (Pos.mk 1 2)) (.Tfun (FunType.mk .Fstandard [] [] []
    (FunImplicitParams.mk (.CapTy (Ty.mk (.hint (Pos.mk 11 12))
      (.Tapply (Pos.mk 11 12, "_".toList) []))))
    (PossiblyEnforcedTy.mk .Unenforced TANY) 0 (IfcFunDecl.FDPolicied (some "PUBLIC".toList))))

def demoFParam : FunParam :=
  FunParam.mk (Pos.mk 3 4) (some "$f".toList)
    (PossiblyEnforcedTy.mk .Unenforced demoFunParamTy) 0

def demoFunCtxCap : FunImplicitParams :=
  FunImplicitParams.mk (.CapTy (Ty.mk (.hint (Pos.mk 9 10))
    (.Tapply (Pos.mk 9 10, "$f".toList) [])))

def demoTparamT : Tparam := tp_synth (Pos.mk 13 14, "T".toList) []

def demoGenericRoot : Ty := Ty.mk (.hint (Pos.mk 5 6)) (.Tgeneric "T".toList [])

def demoGenericCap : FunImplicitParams :=
  FunImplicitParams.mk (.CapTy (Ty.mk (.hint (Pos.mk 9 10))
    (.Taccess demoGenericRoot (Pos.mk 7 8, "C".toList))))

/-- C9: every type parameter synthesized by the effect-polymorphism rewriter
is invariant, erased, carries no user attributes and no nested type
parameters, and carries no constraints except a single `as`-constraint (first
conjunct, over all inputs); on the three concrete scenario forms, `T/$g`
carries exactly the one `as`-constraint bounding it by the parameter's
original type while `T/[$g::C]`, `T/[ctx $f]` and the generic-projection form
`T/[T::C]` are unconstrained. -/
theorem rewrite_effect_polymorphism_synth_tparams_shape :
    (∀ (params : List FunParam) (tps : List Tparam) (ip : FunImplicitParams)
        (wcs : List WhereConstraint) (tp : Tparam),
        tp ∈ (rewrite_effect_polymorphism params tps ip wcs).2.1 →
        tp ∈ tps ∨ synth_tparam_ok tp) ∧
    (rewrite_effect_polymorphism [demoGParam] [] demoArgCtxCap []).2.1
      = [Tparam.mk .Invariant (Pos.mk 3 4, "T/".toList ++ "$g".toList) []
           [(ConstraintKind.ConstraintAs, demoG)] .Erased [],
         Tparam.mk .Invariant (Pos.mk 9 10,
           ctx_generic_for_dependent "$g".toList "C".toList) [] [] .Erased []] ∧
    (rewrite_effect_polymorphism [demoFParam] [] demoFunCtxCap []).2.1
      = [Tparam.mk .Invariant (Pos.mk 11 12, ctx_generic_for_fun "$f".toList)
           [] [] .Erased []] ∧
    (rewrite_effect_polymorphism [] [demoTparamT] demoGenericCap []).2.1
      = [demoTparamT,
         Tparam.mk .Invariant (Pos.mk 9 10,
           ctx_generic_for_generic_taccess demoGenericRoot "C".toList) [] [] .Erased []] := by
  refine ⟨?_, ?_, ?_, ?_⟩
  · intro params tps ip wcs tp htp
    unfold rewrite_effect_polymorphism at htp
    split at htp
    · exact Or.inl htp
    · exact foldl_rewrite_context_step_tparams _ _ tp htp
  · rfl
  · rfl
  · rfl

/-- Witness for C9: the first conjunct instantiated on the `$g::C` scenario
at the synthesized `T/$g` type parameter. -/
theorem rewrite_effect_polymorphism_synth_tparams_shape_witness :
    Tparam.mk .Invariant (Pos.mk 3 4, "T/".toList ++ "$g".toList) []
        [(ConstraintKind.ConstraintAs, demoG)] .Erased [] ∈ ([] : List Tparam) ∨
      synth_tparam_ok (Tparam.mk .Invariant (Pos.mk 3 4, "T/".toList ++ "$g".toList) []
        [(ConstraintKind.ConstraintAs, demoG)] .Erased []) :=
  rewrite_effect_polymorphism_synth_tparams_shape.1 [demoGParam] [] demoArgCtxCap [] _
    (by rw [rewrite_effect_polymorphism_synth_tparams_shape.2.1]
        exact List.mem_cons_self _ _)

/-! ## Node model (`Node<'a>`, tokens, syntax kinds) -/

/-- `TokenKind`, restricted to the kinds the embedded code paths inspect;
`OtherTok` stands for every remaining fixed-width token kind. -/
inductive TokenKind
  | Yield
  | Required
  | Lateinit
  | Varray
  | Darray
  | This
  | NullLiteral
  | XHP
  | Construct
  | Namespace
  | Abstract
  | Final
  | Interface
  | Trait
  | Extends
  | Implements
  | Equal
  | Super
  | Async
  | Readonly
  | Private
  | Protected
  | Public
  | Name
  | Class
  | Backslash
  | OtherTok (n : Nat)
  deriving DecidableEq, Repr

/-- `SyntaxKind`, restricted to the kinds the embedded code paths name;
`OtherSK` stands for every remaining grammar-production kind. -/
inductive SyntaxKind
  | ClassishDeclaration
  | OldAttributeSpecification
  | Missing
  | TokenSK (tk : TokenKind)
  | OtherSK (n : Nat)
  deriving DecidableEq, Repr

/-- `ClassNameParam`. -/
structure ClassNameParam where
  name : PosId
  full_pos : Pos
  deriving DecidableEq, Repr

/-- `UserAttributeNode` (`string_literal_params` byte strings modelled as
`Str`). -/
structure UserAttributeNode where
  name : PosId
  classname_params : List ClassNameParam
  string_literal_params : List Str
  deriving DecidableEq, Repr

/-- `Node<'a>`, restricted to the variants the embedded code paths construct
or inspect (the remaining declaration-fragment variants — function headers,
methods, properties, shape fields, etc. — are not touched by any claim).
A token carries its kind, its position, and its source text (the Rust
`FixedWidthToken` stores an offset from which position and text are
recomputed). -/
inductive Node where
  | Ignored (kind : SyntaxKind)
  | List (children : List Node)
  | BracketedList (openPos : Pos) (children : List Node) (closePos : Pos)
  | Name (name : Str) (pos : Pos)
  | XhpName (name : Str) (pos : Pos)
  | Variable (name : Str) (pos : Pos)
  | QualifiedName (parts : List Node) (pos : Pos)
  | StringLiteral (s : Str) (pos : Pos)
  | IntLiteral (s : Str) (pos : Pos)
  | FloatingLiteral (s : Str) (pos : Pos)
  | BooleanLiteral (s : Str) (pos : Pos)
  | TyNode (ty : Ty)
  | ListItem (fst : Node) (snd : Node)
  | Attribute (attr : UserAttributeNode)
  | ClassishBody (elements : List Node)
  | WhereConstraintNode (wc : WhereConstraint)
  | Token (kind : TokenKind) (pos : Pos) (text : Str)

/-- `Node::token_kind`. -/
def Node.token_kind : Node → Option TokenKind
  | .Token k _ _ => some k
  | _ => none

/-- `Node::is_token`. -/
def Node.is_token (n : Node) (k : TokenKind) : Bool :=
  n.token_kind = some k

/-- `Node::is_ignored`. -/
def Node.is_ignored : Node → Bool
  | .Ignored _ => true
  | _ => false

/-- `Node::is_present`. -/
def Node.is_present (n : Node) : Bool := !n.is_ignored

/-- `Node::as_id`. -/
def Node.as_id : Node → Option PosId
  | .Name name pos => some (pos, name)
  | .XhpName name pos => some (pos, name)
  | _ => none

/-- A list of nodes (named to avoid shadowing by the `Node.List`
constructor inside the `Node` namespace). -/
abbrev Nodes := List Node

/-- `Node::iter` (flattened to a list): lists and bracketed lists yield their
children, ignored nodes yield nothing, and any other node yields itself. -/
def Node.iterList : Node → Nodes
  | .List items => items
  | .BracketedList _ items _ => items
  | .Ignored _ => []
  | n => [n]

/-! ## List flattening (`FlattenOp::flatten`, `FlattenOp::is_zero`) -/

mutual
/-- `is_zero`: droppable nodes.  Tokens are droppable except the `Yield`,
`Required` and `Lateinit` sentinels; a `List` is droppable when all its
elements are; everything else is droppable. -/
def is_zero : Node → Bool
  | .Token tk _ _ =>
    match tk with
    | .Yield => false
    | .Required => false
    | .Lateinit => false
    | _ => true
  | .List inner => is_zero_list inner
  | _ => true

/-- `inner.iter().all(is_zero)`. -/
def is_zero_list : List Node → Bool
  | [] => true
  | x :: xs => is_zero x && is_zero_list xs
end

/-- `flatten`: splice `List` children, drop zeros, then collapse the result
(the Rust size precomputation only preallocates capacity and has no
behavioural content). -/
def flatten (kind : SyntaxKind) (lst : List Node) : Node :=
  let r := lst.foldl (fun r s =>
    match s with
    | Node.List children => r ++ children
    | x => if is_zero x then r else r ++ [x]) []
  match r with
  | [] => .Ignored kind
  | [node] => node
  | a :: b :: rest => .List (a :: b :: rest)

/-- Specification helper: the contribution of one child to the flattened
element list — a `List` child is spliced, any other child is kept iff it is
not a droppable zero. -/
def flatten_child (s : Node) : List Node :=
  match s with
  | .List children => children
  | x => if is_zero x then [] else [x]

/-- Specification helper: all elements surviving one flattening pass. -/
def flatten_elems (lst : List Node) : List Node := lst.flatMap flatten_child

theorem if_zero_step (r : List Node) (x : Node) :
    (if is_zero x then r else r ++ [x]) = r ++ (if is_zero x then [] else [x]) := by
  by_cases h : is_zero x <;> simp [h]

theorem flatten_step_eq (r : List Node) (s : Node) :
    (match s with
      | Node.List children => r ++ children
      | x => if is_zero x then r else r ++ [x])
    = r ++ flatten_child s := by
  unfold flatten_child
  cases s <;> first
    | rfl
    | exact if_zero_step r _

theorem flatten_foldl_eq (lst : List Node) (acc : List Node) :
    (lst.foldl (fun r s =>
      match s with
      | Node.List children => r ++ children
      | x => if is_zero x then r else r ++ [x]) acc)
    = acc ++ flatten_elems lst := by
  have hfun : (fun (r : List Node) (s : Node) =>
      match s with
      | Node.List children => r ++ children
      | x => if is_zero x then r else r ++ [x])
      = fun r s => r ++ flatten_child s := by
    funext r s
    exact flatten_step_eq r s
  rw [hfun]
  induction lst generalizing acc with
  | nil => simp [flatten_elems]
  | cons s rest ih =>
    simp only [List.foldl_cons, flatten_elems, List.flatMap_cons, ih,
      List.append_assoc]

/-- C7: flattening splices each `List` child (one level), drops each
droppable-zero child (`Ignored` nodes; tokens other than the `Yield`,
`Required`, `Lateinit` sentinels), never classifies a `Yield` token as a
droppable zero (so it survives), and collapses the result to `Ignored` /
the sole element / a `List` according to how many elements remain. -/
theorem flatten_splices_drops_zeros_keeps_yield :
    (∀ (kind : SyntaxKind) (lst : List Node),
      flatten kind lst =
        match flatten_elems lst with
        | [] => Node.Ignored kind
        | [n] => n
        | a :: b :: rest => Node.List (a :: b :: rest)) ∧
    (∀ (p : Pos) (t : Str), is_zero (Node.Token .Yield p t) = false) ∧
    (∀ k : SyntaxKind, is_zero (Node.Ignored k) = true) ∧
    (∀ (tk : TokenKind) (p : Pos) (t : Str),
      tk ≠ .Yield → tk ≠ .Required → tk ≠ .Lateinit →
      is_zero (Node.Token tk p t) = true) ∧
    (∀ (lst : List Node) (p : Pos) (t : Str),
      Node.Token .Yield p t ∈ lst →
      Node.Token .Yield p t ∈ flatten_elems lst) := by
  refine ⟨?_, ?_, ?_, ?_, ?_⟩
  · intro kind lst
    unfold flatten
    rw [flatten_foldl_eq]
    simp
  · intro p t
    simp [is_zero]
  · intro k
    simp [is_zero]
  · intro tk p t h1 h2 h3
    cases tk <;> first
      | exact absurd rfl h1
      | exact absurd rfl h2
      | exact absurd rfl h3
      | simp [is_zero]
  · intro lst p t hmem
    have hchild : Node.Token .Yield p t ∈ flatten_child (Node.Token .Yield p t) := by
      simp [flatten_child, is_zero]
    exact List.mem_flatMap.mpr ⟨_, hmem, hchild⟩

/-- Witness for C7: a non-sentinel token is a droppable zero; a `Yield`
token among the children survives. -/
theorem flatten_splices_drops_zeros_keeps_yield_witness :
    is_zero (Node.Token (.OtherTok 0) Pos.none_ []) = true ∧
    Node.Token .Yield Pos.none_ [] ∈
      flatten_elems [Node.Ignored .Missing, Node.Token .Yield Pos.none_ []] ∧
    flatten .Missing [Node.Ignored .Missing, Node.Token .Yield Pos.none_ []]
      = (match flatten_elems [Node.Ignored .Missing, Node.Token .Yield Pos.none_ []] with
         | [] => Node.Ignored .Missing
         | [n] => n
         | a :: b :: rest => Node.List (a :: b :: rest)) :=
  ⟨flatten_splices_drops_zeros_keeps_yield.2.2.2.1 (.OtherTok 0) Pos.none_ []
      (by simp) (by simp) (by simp),
   flatten_splices_drops_zeros_keeps_yield.2.2.2.2
      [Node.Ignored .Missing, Node.Token .Yield Pos.none_ []] Pos.none_ []
      (by simp),
   flatten_splices_drops_zeros_keeps_yield.1 .Missing
      [Node.Ignored .Missing, Node.Token .Yield Pos.none_ []]⟩

/-! ## Attribute interpretation (`to_attributes`) -/

/-- `default_ifc_fun_decl`. -/
def default_ifc_fun_decl : IfcFunDecl := IfcFunDecl.FDPolicied (some "PUBLIC".toList)

/-- Modelled from the spec: `naming_special_names::user_attributes::VIA_LABEL`
lives in an external crate; its value is the `__ViaLabel` attribute name. -/
def VIA_LABEL : Str := "__ViaLabel".toList

/-- `str::split('.')` on our string model: always yields at least one
(possibly empty) segment. -/
def strSplitOnDot (s : Str) : List Str :=
  s.foldr (fun c acc =>
    match acc with
    | seg :: rest => if c = '.' then [] :: seg :: rest else (c :: seg) :: rest
    | [] => [[c]]) [[]]

/-- The `Attributes` record built by `to_attributes` (`Module_` modelled as
first segment × remaining segments). -/
structure Attributes where
  deprecated : Option Str
  reifiable : Option Pos
  late_init : Bool
  const_ : Bool
  lsb : Bool
  memoizelsb : Bool
  override_ : Bool
  enforceable : Option Pos
  accept_disposable : Bool
  dynamically_callable : Bool
  returns_disposable : Bool
  php_std_lib : Bool
  ifc_attribute : IfcFunDecl
  external : Bool
  can_call : Bool
  via_label : Bool
  soft : Bool
  support_dynamic_type : Bool
  module : Option (Str × List Str)
  internal : Bool
  deriving DecidableEq, Repr

/-- The initial `Attributes` value of `to_attributes`. -/
def default_attributes : Attributes :=
  { deprecated := none
    reifiable := none
    late_init := false
    const_ := false
    lsb := false
    memoizelsb := false
    override_ := false
    enforceable := none
    accept_disposable := false
    dynamically_callable := false
    returns_disposable := false
    php_std_lib := false
    ifc_attribute := default_ifc_fun_decl
    external := false
    can_call := false
    via_label := false
    soft := false
    support_dynamic_type := false
    module := none
    internal := false }

/-- One iteration of `to_attributes`' reversed loop: the `Attributes` record
together with the `ifc_already_policied` flag.  Non-`Attribute` nodes are
skipped; unrecognized attribute names fall through with no effect. -/
def to_attributes_step (acc : Attributes × Bool) (node : Node) : Attributes × Bool :=
  match node with
  | .Attribute attr =>
    let attributes := acc.1
    let ifc_already_policied := acc.2
    let n := attr.name.2
    if n = "__Deprecated".toList then
      ({ attributes with deprecated := attr.string_literal_params.head? },
        ifc_already_policied)
    else if n = "__Reifiable".toList then
      ({ attributes with reifiable := some attr.name.1 }, ifc_already_policied)
    else if n = "__LateInit".toList then
      ({ attributes with late_init := true }, ifc_already_policied)
    else if n = "__Const".toList then
      ({ attributes with const_ := true }, ifc_already_policied)
    else if n = "__LSB".toList then
      ({ attributes with lsb := true }, ifc_already_policied)
    else if n = "__MemoizeLSB".toList then
      ({ attributes with memoizelsb := true }, ifc_already_policied)
    else if n = "__Override".toList then
      ({ attributes with override_ := true }, ifc_already_policied)
    else if n = "__Enforceable".toList then
      ({ attributes with enforceable := some attr.name.1 }, ifc_already_policied)
    else if n = "__AcceptDisposable".toList then
      ({ attributes with accept_disposable := true }, ifc_already_policied)
    else if n = "__DynamicallyCallable".toList then
      ({ attributes with dynamically_callable := true }, ifc_already_policied)
    else if n = "__ReturnDisposable".toList then
      ({ attributes with returns_disposable := true }, ifc_already_policied)
    else if n = "__PHPStdLib".toList then
      ({ attributes with php_std_lib := true }, ifc_already_policied)
    else if n = "__Policied".toList then
      ({ attributes with ifc_attribute := (IfcFunDecl.FDPolicied
          (match attr.classname_params.head? with
            | some x => some x.name.2
            | none => attr.string_literal_params.head?)) }, true)
    else if n = "__InferFlows".toList then
      (if ifc_already_policied then (attributes, ifc_already_policied)
       else ({ attributes with ifc_attribute := IfcFunDecl.FDInferFlows },
         ifc_already_policied))
    else if n = "__External".toList then
      ({ attributes with external := true }, ifc_already_policied)
    else if n = "__CanCall".toList then
      ({ attributes with can_call := true }, ifc_already_policied)
    else if n = VIA_LABEL then
      ({ attributes with via_label := true }, ifc_already_policied)
    else if n = "__Soft".toList then
      ({ attributes with soft := true }, ifc_already_policied)
    else if n = "__SupportDynamicType".toList then
      ({ attributes with support_dynamic_type := true }, ifc_already_policied)
    else if n = "__Module".toList then
      ({ attributes with module := (attr.string_literal_params.head?.map
          (fun x => ((strSplitOnDot x).headD [], (strSplitOnDot x).tail))) },
        ifc_already_policied)
    else if n = "__Internal".toList then
      ({ attributes with internal := true }, ifc_already_policied)
    else acc
  | _ => acc

/-- The reversed iteration (`nodes.iter().rev()`) of `to_attributes`. -/
def to_attributes_fold (nodes : List Node) : Attributes × Bool :=
  nodes.reverse.foldl to_attributes_step (default_attributes, false)

/-- `to_attributes`. -/
def to_attributes (node : Node) : Attributes :=
  match node with
  | .List nodes => (to_attributes_fold nodes).1
  | .BracketedList _ nodes _ => (to_attributes_fold nodes).1
  | _ => default_attributes

/-- A node carrying the `__Policied` attribute. -/
def is_policied_attr : Node → Bool
  | .Attribute a => a.name.2 = "__Policied".toList
  | _ => false

/-- A node carrying the `__InferFlows` attribute. -/
def is_infer_flows_attr : Node → Bool
  | .Attribute a => a.name.2 = "__InferFlows".toList
  | _ => false

/-- The payload `to_attributes` stores for a `__Policied` attribute: the
first classname parameter if any, else the first string-literal parameter. -/
def policied_payload : Node → Option Str
  | .Attribute a =>
    match a.classname_params.head? with
    | some x => some x.name.2
    | none => a.string_literal_params.head?
  | _ => none

/-- The resolved ifc attribute: the first `__Policied` in source order wins;
`__InferFlows` wins only when no `__Policied` is present; otherwise the
default. -/
def ifc_spec (l : List Node) : IfcFunDecl :=
  match l.find? is_policied_attr with
  | some a => IfcFunDecl.FDPolicied (policied_payload a)
  | none =>
    if l.any is_infer_flows_attr then IfcFunDecl.FDInferFlows
    else default_ifc_fun_decl

theorem to_attributes_fold_cons (a : Node) (l : List Node) :
    to_attributes_fold (a :: l) = to_attributes_step (to_attributes_fold l) a := by
  unfold to_attributes_fold
  rw [List.reverse_cons, List.foldl_append]
  rfl

theorem to_attributes_step_policied (acc : Attributes × Bool) (n : Node)
    (h : is_policied_attr n = true) :
    (to_attributes_step acc n).1.ifc_attribute
        = IfcFunDecl.FDPolicied (policied_payload n) ∧
      (to_attributes_step acc n).2 = true := by
  cases n with
  | Attribute attr =>
    obtain ⟨⟨npos, nstr⟩, cps, sps⟩ := attr
    simp only [is_policied_attr, decide_eq_true_eq] at h
    subst h
    constructor <;> simp [to_attributes_step, policied_payload]
  | _ => simp [is_policied_attr] at h

theorem to_attributes_step_infer_flows (acc : Attributes × Bool) (n : Node)
    (h : is_infer_flows_attr n = true) :
    (to_attributes_step acc n).1.ifc_attribute
        = (if acc.2 then acc.1.ifc_attribute else IfcFunDecl.FDInferFlows) ∧
      (to_attributes_step acc n).2 = acc.2 := by
  cases n with
  | Attribute attr =>
    obtain ⟨⟨npos, nstr⟩, cps, sps⟩ := attr
    simp only [is_infer_flows_attr, decide_eq_true_eq] at h
    subst h
    by_cases hf : acc.2 <;>
      constructor <;> simp [to_attributes_step, hf]
  | _ => simp [is_infer_flows_attr] at h

set_option maxHeartbeats 1000000 in
theorem to_attributes_step_other (acc : Attributes × Bool) (n : Node)
    (hp : is_policied_attr n = false) (hi : is_infer_flows_attr n = false) :
    (to_attributes_step acc n).1.ifc_attribute = acc.1.ifc_attribute ∧
      (to_attributes_step acc n).2 = acc.2 := by
  cases n with
  | Attribute attr =>
    obtain ⟨⟨npos, nstr⟩, cps, sps⟩ := attr
    simp only [is_policied_attr, decide_eq_false_iff_not] at hp
    simp only [is_infer_flows_attr, decide_eq_false_iff_not] at hi
    by_cases h1 : nstr = "__Deprecated".toList
    · subst h1
      exact ⟨rfl, rfl⟩
    by_cases h2 : nstr = "__Reifiable".toList
    · subst h2
      exact ⟨rfl, rfl⟩
    by_cases h3 : nstr = "__LateInit".toList
    · subst h3
      exact ⟨rfl, rfl⟩
    by_cases h4 : nstr = "__Const".toList
    · subst h4
      exact ⟨rfl, rfl⟩
    by_cases h5 : nstr = "__LSB".toList
    · subst h5
      exact ⟨rfl, rfl⟩
    by_cases h6 : nstr = "__MemoizeLSB".toList
    · subst h6
      exact ⟨rfl, rfl⟩
    by_cases h7 : nstr = "__Override".toList
    · subst h7
      exact ⟨rfl, rfl⟩
    by_cases h8 : nstr = "__Enforceable".toList
    · subst h8
      exact ⟨rfl, rfl⟩
    by_cases h9 : nstr = "__AcceptDisposable".toList
    · subst h9
      exact ⟨rfl, rfl⟩
    by_cases h10 : nstr = "__DynamicallyCallable".toList
    · subst h10
      exact ⟨rfl, rfl⟩
    by_cases h11 : nstr = "__ReturnDisposable".toList
    · subst h11
      exact ⟨rfl, rfl⟩
    by_cases h12 : nstr = "__PHPStdLib".toList
    · subst h12
      exact ⟨rfl, rfl⟩
    by_cases h13 : nstr = "__Policied".toList
    · exact absurd h13 hp
    by_cases h14 : nstr = "__InferFlows".toList
    · exact absurd h14 hi
    by_cases h15 : nstr = "__External".toList
    · subst h15
      exact ⟨rfl, rfl⟩
    by_cases h16 : nstr = "__CanCall".toList
    · subst h16
      exact ⟨rfl, rfl⟩
    by_cases h17 : nstr = VIA_LABEL
    · subst h17
      exact ⟨rfl, rfl⟩
    by_cases h18 : nstr = "__Soft".toList
    · subst h18
      exact ⟨rfl, rfl⟩
    by_cases h19 : nstr = "__SupportDynamicType".toList
    · subst h19
      exact ⟨rfl, rfl⟩
    by_cases h20 : nstr = "__Module".toList
    · subst h20
      exact ⟨rfl, rfl⟩
    by_cases h21 : nstr = "__Internal".toList
    · subst h21
      exact ⟨rfl, rfl⟩
    dsimp only [to_attributes_step]
    rw [if_neg h1, if_neg h2, if_neg h3, if_neg h4, if_neg h5, if_neg h6, if_neg h7, if_neg h8, if_neg h9, if_neg h10, if_neg h11, if_neg h12, if_neg h13, if_neg h14, if_neg h15, if_neg h16, if_neg h17, if_neg h18, if_neg h19, if_neg h20, if_neg h21]
    exact ⟨rfl, rfl⟩
  | Ignored k => exact ⟨rfl, rfl⟩
  | List c => exact ⟨rfl, rfl⟩
  | BracketedList o c cl => exact ⟨rfl, rfl⟩
  | Name s p => exact ⟨rfl, rfl⟩
  | XhpName s p => exact ⟨rfl, rfl⟩
  | Variable s p => exact ⟨rfl, rfl⟩
  | QualifiedName ps p => exact ⟨rfl, rfl⟩
  | StringLiteral s p => exact ⟨rfl, rfl⟩
  | IntLiteral s p => exact ⟨rfl, rfl⟩
  | FloatingLiteral s p => exact ⟨rfl, rfl⟩
  | BooleanLiteral s p => exact ⟨rfl, rfl⟩
  | TyNode t => exact ⟨rfl, rfl⟩
  | ListItem f s => exact ⟨rfl, rfl⟩
  | ClassishBody es => exact ⟨rfl, rfl⟩
  | WhereConstraintNode wc => exact ⟨rfl, rfl⟩
  | Token k p t => exact ⟨rfl, rfl⟩

theorem ifc_spec_cons_not_policied (a : Node) (l : List Node)
    (hp : is_policied_attr a = false) :
    ifc_spec (a :: l) =
      (match l.find? is_policied_attr with
       | some x => IfcFunDecl.FDPolicied (policied_payload x)
       | none =>
         if (is_infer_flows_attr a || l.any is_infer_flows_attr)
         then IfcFunDecl.FDInferFlows else default_ifc_fun_decl) := by
  have hfindc : List.find? is_policied_attr (a :: l) = List.find? is_policied_attr l :=
    List.find?_cons_of_neg l (by simp [hp])
  simp only [ifc_spec, hfindc, List.any_cons]

theorem to_attributes_fold_ifc (l : List Node) :
    (to_attributes_fold l).2 = l.any is_policied_attr ∧
      (to_attributes_fold l).1.ifc_attribute = ifc_spec l := by
  induction l with
  | nil => exact ⟨rfl, rfl⟩
  | cons a l ih =>
    rw [to_attributes_fold_cons]
    by_cases hp : is_policied_attr a = true
    · have h := to_attributes_step_policied (to_attributes_fold l) a hp
      refine ⟨?_, ?_⟩
      · rw [h.2, List.any_cons, hp, Bool.true_or]
      · rw [h.1]
        simp only [ifc_spec, List.find?_cons_of_pos _ hp]
    · rw [Bool.not_eq_true] at hp
      have hany : (a :: l).any is_policied_attr = l.any is_policied_attr := by
        rw [List.any_cons, hp, Bool.false_or]
      by_cases hi : is_infer_flows_attr a = true
      · have h := to_attributes_step_infer_flows (to_attributes_fold l) a hi
        refine ⟨by rw [h.2, ih.1, hany], ?_⟩
        rw [h.1, ih.1, ih.2, ifc_spec_cons_not_policied a l hp]
        cases hfind : l.find? is_policied_attr with
        | some x =>
          have hl : l.any is_policied_attr = true :=
            List.any_eq_true.mpr
              ⟨x, List.mem_of_find?_eq_some hfind, List.find?_some hfind⟩
          rw [hl]
          simp only [ifc_spec, hfind, if_true]
        | none =>
          have hl : l.any is_policied_attr = false := by
            rw [List.find?_eq_none] at hfind
            rw [List.any_eq_false]
            intro x hx
            simp [hfind x hx]
          rw [hl]
          simp [hi]
      · rw [Bool.not_eq_true] at hi
        have h := to_attributes_step_other (to_attributes_fold l) a hp hi
        refine ⟨by rw [h.2, ih.1, hany], ?_⟩
        rw [h.1, ih.2, ifc_spec_cons_not_policied a l hp]
        cases hfind : l.find? is_policied_attr with
        | some x => simp only [ifc_spec, hfind]
        | none => simp only [ifc_spec, hfind, hi, Bool.false_or]

/-- `<<Policied("A")>>` with its single string-literal parameter. -/
def policied_a_node : Node :=
  Node.Attribute ⟨(Pos.none_, "__Policied".toList), [], ["A".toList]⟩

/-- `<<InferFlows>>`. -/
def infer_flows_node : Node :=
  Node.Attribute ⟨(Pos.none_, "__InferFlows".toList), [], []⟩

/-- C3 counterexample: for the source-order attribute list
`<<InferFlows>> <<Policied("A")>>`, the first occurrence in original
syntactic order is `__InferFlows`, yet `to_attributes` resolves the conflict
to the `__Policied` form — so "first occurrence in original syntactic order
wins" is false as a general rule. -/
theorem to_attributes_first_occurrence_counterexample :
    (to_attributes (Node.List [infer_flows_node, policied_a_node])).ifc_attribute
        = IfcFunDecl.FDPolicied (some "A".toList) ∧
      (to_attributes (Node.List [infer_flows_node, policied_a_node])).ifc_attribute
        ≠ IfcFunDecl.FDInferFlows := by
  refine ⟨rfl, ?_⟩
  rw [show (to_attributes (Node.List [infer_flows_node, policied_a_node])).ifc_attribute
      = IfcFunDecl.FDPolicied (some "A".toList) from rfl]
  simp

/-- C3 (amended): when `__Policied` and `__InferFlows` both appear,
`to_attributes` resolves the conflict without error with `__Policied` taking
precedence regardless of order; among multiple `__Policied` occurrences the
first in original syntactic order wins, and `__InferFlows` wins only when no
`__Policied` is present.  In particular `<<Policied("A")>> <<InferFlows>>`
yields the Policied form carrying "A". -/
theorem to_attributes_policied_precedence :
    (∀ (nodes : List Node) (a : Node),
      nodes.find? is_policied_attr = some a →
      (to_attributes (Node.List nodes)).ifc_attribute
        = IfcFunDecl.FDPolicied (policied_payload a)) ∧
    (∀ nodes : List Node,
      nodes.find? is_policied_attr = none →
      nodes.any is_infer_flows_attr = true →
      (to_attributes (Node.List nodes)).ifc_attribute = IfcFunDecl.FDInferFlows) ∧
    (to_attributes (Node.List [policied_a_node, infer_flows_node])).ifc_attribute
      = IfcFunDecl.FDPolicied (some "A".toList) := by
  refine ⟨?_, ?_, rfl⟩
  · intro nodes a hfind
    have h := (to_attributes_fold_ifc nodes).2
    show (to_attributes_fold nodes).1.ifc_attribute = _
    rw [h]
    simp only [ifc_spec, hfind]
  · intro nodes hfind hany
    have h := (to_attributes_fold_ifc nodes).2
    show (to_attributes_fold nodes).1.ifc_attribute = _
    rw [h]
    simp only [ifc_spec, hfind, hany, if_true]

/-- Witness for C3: the general first-`__Policied`-wins conjunct instantiated
on `<<InferFlows>> <<Policied("A")>>`. -/
theorem to_attributes_policied_precedence_witness :
    [infer_flows_node, policied_a_node].find? is_policied_attr
        = some policied_a_node ∧
      (to_attributes (Node.List [infer_flows_node, policied_a_node])).ifc_attribute
        = IfcFunDecl.FDPolicied (policied_payload policied_a_node) :=
  ⟨rfl, to_attributes_policied_precedence.1 [infer_flows_node, policied_a_node]
    policied_a_node rfl⟩

/-! ## Positions over nodes, names, and namespace elaboration -/

/-- The `merge` helper (`DirectDeclSmartConstructors::merge`). -/
def posMerge (p1 p2 : Option Pos) : Pos :=
  match p1, p2 with
  | none, none => Pos.none_
  | some p, none => p
  | none, some p => p
  | some q1, some q2 =>
    match q1.isNone, q2.isNone with
    | true, true => Pos.none_
    | true, false => q2
    | false, true => q1
    | false, false => Pos.mergeRaw q1 q2

/-- The trailing `if pos.is_none() { None } else { Some(pos) }` filter of
`get_pos_opt`. -/
def posFilter (p : Pos) : Option Pos :=
  if p.isNone then none else some p

mutual
/-- `get_pos_opt` (the `Node::Ty` arm returns the type's reason position
without the final none-filter, mirroring the early `return`; `get_pos` of a
subnode is inlined as `(get_pos_opt _).getD Pos.none_`). -/
def get_pos_opt : Node → Option Pos
  | .Name _ pos => posFilter pos
  | .Variable _ pos => posFilter pos
  | .TyNode ty => ty.get_pos
  | .XhpName _ pos => posFilter pos
  | .QualifiedName _ pos => posFilter pos
  | .IntLiteral _ pos => posFilter pos
  | .FloatingLiteral _ pos => posFilter pos
  | .StringLiteral _ pos => posFilter pos
  | .BooleanLiteral _ pos => posFilter pos
  | .ListItem fst snd =>
    posFilter (posMerge (some ((get_pos_opt fst).getD Pos.none_))
      (some ((get_pos_opt snd).getD Pos.none_)))
  | .List items => posFilter (pos_from_slice_go Pos.none_ items)
  | .BracketedList p1 inner p2 =>
    posFilter (posMerge (some p1)
      (some (posMerge (some (pos_from_slice_go Pos.none_ inner)) (some p2))))
  | .Token _ pos _ => posFilter pos
  | _ => none

/-- `pos_from_slice`: fold `merge` over the nodes starting from `Pos::none`. -/
def pos_from_slice_go (acc : Pos) : List Node → Pos
  | [] => acc
  | n :: rest =>
    pos_from_slice_go (posMerge (some acc) (some ((get_pos_opt n).getD Pos.none_))) rest
end

/-- `get_pos`. -/
def get_pos (n : Node) : Pos := (get_pos_opt n).getD Pos.none_

/-- `merge_positions`. -/
def merge_positions (n1 n2 : Node) : Pos :=
  posMerge (some (get_pos n1)) (some (get_pos n2))

/-- `qualified_name_from_parts`.  The Rust fast path (when the parts cover
the whole source span, reference the source text instead of copying) builds
the same string by construction and is therefore not modelled separately. -/
def qualified_name_from_parts (parts : List Node) (pos : Pos) : PosId :=
  let qualified_name : Str := parts.foldl (fun acc part =>
    match part with
    | Node.Name name _ => acc ++ name
    | Node.Token .Backslash _ _ => acc ++ ['\\']
    | Node.ListItem (Node.Name name _) _ => acc ++ name ++ ['\\']
    | Node.ListItem (Node.Token .Namespace _ _) _ => acc ++ "namespace\\".toList
    | _ => acc) []
  (pos, qualified_name)

/-- `expect_name`: a simple identifier, a qualified name, or an XHP token
(whose text the Rust code reads back from the source at the token's
position). -/
def expect_name (name : Node) : Option PosId :=
  match name.as_id with
  | some id => some id
  | none =>
    match name with
    | Node.QualifiedName parts pos => some (qualified_name_from_parts parts pos)
    | Node.Token .XHP pos text => some (pos, text)
    | _ => none

/-- The namespace-use kinds consumed by the elaboration entry points in this
file (`namespaces::ElaborateKind` lives in an external crate). -/
inductive ElaborateKind
  | Class
  | Const
  deriving DecidableEq, Repr

/-- Modelled from the spec: `namespaces::elaborate_raw_id_in` is code of this
repository missing from the pack (only its caller is present).  Per §4.2: a
name beginning with the root separator is absolute and returned unchanged
(handled by the caller); otherwise, if the name's first segment matches a
registered import alias for the requested kind (the namespace table for
multi-segment names), substitute the alias's target; else prefix the current
namespace. -/
def elaborate_raw_id_in (env : NamespaceEnv) (kind : ElaborateKind) (name : Str) : Str :=
  let first := name.takeWhile (fun c => !(c = '\\'))
  let rest := name.dropWhile (fun c => !(c = '\\'))
  let table :=
    if rest.isEmpty then
      match kind with
      | .Class => env.class_uses
      | .Const => env.const_uses
    else env.ns_uses
  match smapGet table first with
  | some target => target ++ rest
  | none =>
    match env.name with
    | some current => '\\' :: (current ++ '\\' :: name)
    | none => '\\' :: name

/-- `NamespaceBuilder::elaborate_raw_id`: absolute names are returned
unchanged, otherwise elaborate in the top environment (the stack is never
empty; the empty case is unreachable). -/
def NamespaceBuilder.elaborate_raw_id (b : NamespaceBuilder) (kind : ElaborateKind)
    (name : Str) : Str :=
  if strStartsWith name "\\".toList then name
  else
    match b.stack with
    | env :: _ => elaborate_raw_id_in env kind name
    | [] => name

/-- Modelled from the spec: `namespaces::elaborate_into_current_ns_in` is
missing from the pack; it prefixes the current namespace (or just the root
separator at the global level). -/
def elaborate_into_current_ns_in (env : NamespaceEnv) (name : Str) : Str :=
  match env.name with
  | some current => '\\' :: (current ++ '\\' :: name)
  | none => '\\' :: name

/-- Modelled from the spec: `namespaces::elaborate_xhp_namespace` is missing
from the pack; XHP element names follow a distinct elaboration path
controlled by the mangling flag.  Its internal rewriting is irrelevant to
every claim and is modelled as the identity. -/
def elaborate_xhp_namespace (name : Str) : Option Str := some name

/-- `NamespaceBuilder::elaborate_defined_id`. -/
def NamespaceBuilder.elaborate_defined_id_in (b : NamespaceBuilder) (id : PosId) : PosId :=
  match b.stack with
  | [] => id
  | env :: _ =>
    let (pos, name) := id
    let name :=
      if env.disable_xhp_element_mangling && strContains name ':' then
        let name := (elaborate_xhp_namespace name).getD name
        if !(strStartsWith name "\\".toList) then elaborate_into_current_ns_in env name
        else name
      else elaborate_into_current_ns_in env name
    (pos, name)

/-- `DirectDeclSmartConstructors::elaborate_defined_id` (lines 181–189):
`Some` exactly for name, XHP-name and qualified-name nodes. -/
def elaborate_defined_id (b : NamespaceBuilder) (name : Node) : Option PosId :=
  match name with
  | Node.Name n pos => some (b.elaborate_defined_id_in (pos, n))
  | Node.XhpName n pos => some (b.elaborate_defined_id_in (pos, n))
  | Node.QualifiedName parts pos =>
    some (b.elaborate_defined_id_in (qualified_name_from_parts parts pos))
  | _ => none

/-! ## Type reduction (`node_to_ty`) and the type-parameter scope stack -/

/-- The slice of `DirectDeclSmartConstructors` state consumed by type
reduction: the type-parameter scope stack (one name-set per open generic
parameter list) and the namespace builder. -/
structure DDSCState where
  type_parameters : List (List Str)
  namespace_builder : NamespaceBuilder

/-- `is_type_param_in_scope`: a flat union over every level of the stack. -/
def is_type_param_in_scope (type_parameters : List (List Str)) (name : Str) : Bool :=
  type_parameters.any (fun tps => tps.contains name)

/-- `vec_or_dict_key`. -/
def vec_or_dict_key (pos : Pos) : Ty :=
  Ty.mk (.RvecOrDictKey pos) (.Tprim .Tarraykey)

/-- Modelled from the spec: `naming_special_names::collections::VEC` lives in
an external crate; the modern vector collection class name. -/
def collections_VEC : Str := "\\HH\\vec".toList

/-- Modelled from the spec: `naming_special_names::collections::DICT` lives
in an external crate; the modern dictionary collection class name. -/
def collections_DICT : Str := "\\HH\\dict".toList

/-- `elaborate_raw_id` (the constructor-level wrapper, lines 218–221):
elaborates as a type name. -/
def elaborate_raw_id_decl (st : DDSCState) (id : Str) : Str :=
  st.namespace_builder.elaborate_raw_id ElaborateKind.Class id

/-- `node_to_ty_`, restricted to the node variants modelled here (the
`Node::Expr` constant-expression arm involves the full expression AST, which
no claim touches, and is omitted: such nodes fall to the name fallback just
like any other non-name node, yielding `none`). -/
def node_to_ty_ (st : DDSCState) (node : Node) (allow_non_ret_ty : Bool) : Option Ty :=
  match node with
  | .TyNode (Ty.mk reason (.Tprim .Tvoid)) =>
    if !allow_non_ret_ty then some (Ty.mk reason .Terr)
    else some (Ty.mk reason (.Tprim .Tvoid))
  | .TyNode (Ty.mk reason (.Tprim .Tnoreturn)) =>
    if !allow_non_ret_ty then some (Ty.mk reason .Terr)
    else some (Ty.mk reason (.Tprim .Tnoreturn))
  | .TyNode ty => some ty
  | .IntLiteral _ pos => some (Ty.mk (.witnessFromDecl pos) (.Tprim .Tint))
  | .FloatingLiteral _ pos => some (Ty.mk (.witnessFromDecl pos) (.Tprim .Tfloat))
  | .StringLiteral _ pos => some (Ty.mk (.witnessFromDecl pos) (.Tprim .Tstring))
  | .BooleanLiteral _ pos => some (Ty.mk (.witnessFromDecl pos) (.Tprim .Tbool))
  | .Token .Varray pos _ =>
    let tany := Ty.mk (.hint pos) .Tany
    some (Ty.mk (.hint pos) (.Tapply (pos, collections_VEC) [tany]))
  | .Token .Darray pos _ =>
    let tany := Ty.mk (.hint pos) .Tany
    some (Ty.mk (.hint pos) (.Tapply (pos, collections_DICT) [tany, tany]))
  | .Token .This pos _ => some (Ty.mk (.hint pos) .Tthis)
  | .Token .NullLiteral pos _ => some (Ty.mk (.hint pos) (.Tprim .Tnull))
  | .Variable name pos => some (Ty.mk (.hint pos) (.Tapply (pos, name) []))
  | node =>
    match expect_name node with
    | none => none
    | some (pos, name) =>
      let reason := Reason.hint pos
      let ty_ : Ty_ :=
        if is_type_param_in_scope st.type_parameters name then
          Ty_.Tgeneric name []
        else if name = "nothing".toList then Ty_.Tunion []
        else if name = "nonnull".toList then Ty_.Tnonnull
        else if name = "dynamic".toList then Ty_.Tdynamic
        else if name = "varray_or_darray".toList ∨ name = "vec_or_dict".toList then
          Ty_.TvecOrDict (vec_or_dict_key pos) (Ty.mk (.hint pos) .Tany)
        else if name = "_".toList then Ty_.Terr
        else Ty_.Tapply (pos, elaborate_raw_id_decl st name) []
      some (Ty.mk reason ty_)

/-- `node_to_ty`. -/
def node_to_ty (st : DDSCState) (node : Node) : Option Ty :=
  node_to_ty_ st node true

/-- `hint_ty`. -/
def hint_ty (pos : Pos) (ty_ : Ty_) : Node :=
  Node.TyNode (Ty.mk (.hint pos) ty_)

/-- `make_varray_type_specifier`. -/
def make_varray_type_specifier (st : DDSCState)
    (varray_keyword _less_than tparam _trailing_comma greater_than : Node) : Node :=
  let tparamTy :=
    match node_to_ty st tparam with
    | some ty => ty
    | none => tany_with_pos (get_pos varray_keyword)
  hint_ty (merge_positions varray_keyword greater_than)
    (.Tapply (get_pos varray_keyword, collections_VEC) [tparamTy])

/-- `make_darray_type_specifier`. -/
def make_darray_type_specifier (st : DDSCState)
    (darray _less_than key_type _comma value_type _trailing_comma greater_than : Node) :
    Node :=
  let pos := merge_positions darray greater_than
  let key := (node_to_ty st key_type).getD TANY
  let value := (node_to_ty st value_type).getD TANY
  hint_ty pos (.Tapply (get_pos darray, collections_DICT) [key, value])

theorem is_type_param_in_scope_iff (stack : List (List Str)) (name : Str) :
    is_type_param_in_scope stack name = true ↔ ∃ lvl ∈ stack, name ∈ lvl := by
  simp [is_type_param_in_scope, List.any_eq_true]

/-- C4: type-parameter scope lookup is a flat union over every level of the
stack (not innermost-shadowing): a name is in scope iff it appears in at
least one level, regardless of which; a bare name occurrence reduces to a
generic-parameter reference exactly when some level contains it, and to a
named type application (elaborated) when no level does. -/
theorem type_param_scope_flat_union :
    (∀ (stack : List (List Str)) (name : Str),
      is_type_param_in_scope stack name = true ↔ ∃ lvl ∈ stack, name ∈ lvl) ∧
    (∀ (st : DDSCState) (name : Str) (pos : Pos),
      (∃ lvl ∈ st.type_parameters, name ∈ lvl) →
      node_to_ty st (Node.Name name pos)
        = some (Ty.mk (.hint pos) (.Tgeneric name []))) ∧
    (∀ (st : DDSCState) (name : Str) (pos : Pos),
      (∀ lvl ∈ st.type_parameters, name ∉ lvl) →
      name ≠ "nothing".toList → name ≠ "nonnull".toList → name ≠ "dynamic".toList →
      name ≠ "varray_or_darray".toList → name ≠ "vec_or_dict".toList →
      name ≠ "_".toList →
      node_to_ty st (Node.Name name pos)
        = some (Ty.mk (.hint pos)
            (.Tapply (pos, elaborate_raw_id_decl st name) []))) := by
  refine ⟨is_type_param_in_scope_iff, ?_, ?_⟩
  · intro st name pos h
    have hscope : is_type_param_in_scope st.type_parameters name = true :=
      (is_type_param_in_scope_iff _ _).mpr h
    simp [node_to_ty, node_to_ty_, expect_name, Node.as_id, hscope]
  · intro st name pos h h1 h2 h3 h4 h5 h6
    have hscope : is_type_param_in_scope st.type_parameters name = false := by
      rw [← Bool.not_eq_true, is_type_param_in_scope_iff]
      push_neg
      exact h
    simp only [node_to_ty, node_to_ty_, expect_name, Node.as_id, hscope,
      Bool.false_eq_true, if_false]
    split_ifs <;> simp_all

/-- Witness for C4: `T` declared only in the outer level of a two-level
stack is still classified in scope and reduces to `Tgeneric`; an unknown
name `C` reduces to an elaborated `Tapply`. -/
theorem type_param_scope_flat_union_witness :
    (∃ lvl ∈ ([[], ["T".toList]] : List (List Str)), "T".toList ∈ lvl) ∧
    node_to_ty ⟨[[], ["T".toList]], NamespaceBuilder.new_in [] [] [] false⟩
        (Node.Name "T".toList Pos.none_)
      = some (Ty.mk (.hint Pos.none_) (.Tgeneric "T".toList [])) ∧
    node_to_ty ⟨[[], ["T".toList]], NamespaceBuilder.new_in [] [] [] false⟩
        (Node.Name "C".toList Pos.none_)
      = some (Ty.mk (.hint Pos.none_)
          (.Tapply (Pos.none_,
            elaborate_raw_id_decl
              ⟨[[], ["T".toList]], NamespaceBuilder.new_in [] [] [] false⟩
              "C".toList) [])) := by
  refine ⟨⟨["T".toList], by simp⟩, ?_, ?_⟩
  · exact type_param_scope_flat_union.2.1 _ _ _ ⟨["T".toList], by simp⟩
  · exact type_param_scope_flat_union.2.2 _ _ _ (by simp) (by simp) (by simp)
      (by simp) (by simp) (by simp) (by simp)

/-- C8: `varray<T>` reduces to the `vec` collection class applied to `T` and
`darray<K,V>` to the `dict` collection class applied to `K, V`, with
unreducible arguments falling back to `any`; the bare `varray`/`darray`
tokens reduce to the same applications with `any` arguments. -/
theorem varray_darray_rewrite :
    (∀ (st : DDSCState) (kw lt t tc gt : Node) (ty : Ty),
      node_to_ty st t = some ty →
      make_varray_type_specifier st kw lt t tc gt
        = Node.TyNode (Ty.mk (.hint (merge_positions kw gt))
            (.Tapply (get_pos kw, collections_VEC) [ty]))) ∧
    (∀ (st : DDSCState) (kw lt t tc gt : Node),
      node_to_ty st t = none →
      make_varray_type_specifier st kw lt t tc gt
        = Node.TyNode (Ty.mk (.hint (merge_positions kw gt))
            (.Tapply (get_pos kw, collections_VEC) [tany_with_pos (get_pos kw)]))) ∧
    (∀ (st : DDSCState) (kw lt k c v tc gt : Node) (kty vty : Ty),
      node_to_ty st k = some kty → node_to_ty st v = some vty →
      make_darray_type_specifier st kw lt k c v tc gt
        = Node.TyNode (Ty.mk (.hint (merge_positions kw gt))
            (.Tapply (get_pos kw, collections_DICT) [kty, vty]))) ∧
    (∀ (st : DDSCState) (kw lt k c v tc gt : Node),
      node_to_ty st k = none → node_to_ty st v = none →
      make_darray_type_specifier st kw lt k c v tc gt
        = Node.TyNode (Ty.mk (.hint (merge_positions kw gt))
            (.Tapply (get_pos kw, collections_DICT) [TANY, TANY]))) ∧
    (∀ (st : DDSCState) (pos : Pos) (text : Str) (allow : Bool),
      node_to_ty_ st (Node.Token .Varray pos text) allow
        = some (Ty.mk (.hint pos)
            (.Tapply (pos, collections_VEC) [Ty.mk (.hint pos) .Tany]))) ∧
    (∀ (st : DDSCState) (pos : Pos) (text : Str) (allow : Bool),
      node_to_ty_ st (Node.Token .Darray pos text) allow
        = some (Ty.mk (.hint pos)
            (.Tapply (pos, collections_DICT)
              [Ty.mk (.hint pos) .Tany, Ty.mk (.hint pos) .Tany]))) := by
  refine ⟨?_, ?_, ?_, ?_, ?_, ?_⟩
  · intro st kw lt t tc gt ty h
    simp [make_varray_type_specifier, h, hint_ty]
  · intro st kw lt t tc gt h
    simp [make_varray_type_specifier, h, hint_ty]
  · intro st kw lt k c v tc gt kty vty hk hv
    simp [make_darray_type_specifier, hk, hv, hint_ty]
  · intro st kw lt k c v tc gt hk hv
    simp [make_darray_type_specifier, hk, hv, hint_ty]
  · intro st pos text allow
    rfl
  · intro st pos text allow
    rfl

/-- Witness for C8 at concrete nodes: a reducible `nonnull` argument and an
unreducible `Ignored` argument. -/
theorem varray_darray_rewrite_witness :
    node_to_ty ⟨[], NamespaceBuilder.new_in [] [] [] false⟩
        (Node.TyNode (Ty.mk .noReason .Tnonnull)) = some (Ty.mk .noReason .Tnonnull) ∧
    make_varray_type_specifier ⟨[], NamespaceBuilder.new_in [] [] [] false⟩
        (Node.Token .Varray (Pos.mk 1 2) "varray".toList) (Node.Ignored .Missing)
        (Node.TyNode (Ty.mk .noReason .Tnonnull)) (Node.Ignored .Missing)
        (Node.Token (.OtherTok 1) (Pos.mk 3 4) ">".toList)
      = Node.TyNode (Ty.mk (.hint (merge_positions
            (Node.Token .Varray (Pos.mk 1 2) "varray".toList)
            (Node.Token (.OtherTok 1) (Pos.mk 3 4) ">".toList)))
          (.Tapply (get_pos (Node.Token .Varray (Pos.mk 1 2) "varray".toList),
            collections_VEC) [Ty.mk .noReason .Tnonnull])) ∧
    make_darray_type_specifier ⟨[], NamespaceBuilder.new_in [] [] [] false⟩
        (Node.Token .Darray (Pos.mk 1 2) "darray".toList) (Node.Ignored .Missing)
        (Node.Ignored .Missing) (Node.Ignored .Missing) (Node.Ignored .Missing)
        (Node.Ignored .Missing) (Node.Token (.OtherTok 1) (Pos.mk 3 4) ">".toList)
      = Node.TyNode (Ty.mk (.hint (merge_positions
            (Node.Token .Darray (Pos.mk 1 2) "darray".toList)
            (Node.Token (.OtherTok 1) (Pos.mk 3 4) ">".toList)))
          (.Tapply (get_pos (Node.Token .Darray (Pos.mk 1 2) "darray".toList),
            collections_DICT) [TANY, TANY])) :=
  ⟨rfl,
   varray_darray_rewrite.1 ⟨[], NamespaceBuilder.new_in [] [] [] false⟩
     (Node.Token .Varray (Pos.mk 1 2) "varray".toList) (Node.Ignored .Missing)
     (Node.TyNode (Ty.mk .noReason .Tnonnull)) (Node.Ignored .Missing)
     (Node.Token (.OtherTok 1) (Pos.mk 3 4) ">".toList)
     (Ty.mk .noReason .Tnonnull) rfl,
   varray_darray_rewrite.2.2.2.1 ⟨[], NamespaceBuilder.new_in [] [] [] false⟩
     (Node.Token .Darray (Pos.mk 1 2) "darray".toList) (Node.Ignored .Missing)
     (Node.Ignored .Missing) (Node.Ignored .Missing) (Node.Ignored .Missing)
     (Node.Ignored .Missing) (Node.Token (.OtherTok 1) (Pos.mk 3 4) ">".toList)
     rfl rfl⟩

/-! ## Classish declaration finalization (`make_classish_declaration`) -/

inductive Abstraction
  | Concrete
  | Abstract
  deriving DecidableEq, Repr

inductive ClassishKind
  | Cclass (a : Abstraction)
  | Cinterface
  | Ctrait
  deriving DecidableEq, Repr

/-- The fields of `ShallowClass` computable from the claim-relevant inputs.
The member-assembly fields (trait uses, consts, type constants, properties,
methods, XHP attribute synthesis, enum data) only populate the inserted
record's payload; they never affect whether an entry is inserted or under
which key, so they are elided from the payload model. -/
structure ShallowClassModel where
  final_ : Bool
  is_xhp : Bool
  has_xhp_keyword : Bool
  kind : ClassishKind
  name : PosId
  where_constraints : List WhereConstraint

/-- The declaration variants of the output table (`Decl`); only the class
payload is modelled (no claim inspects the others). -/
inductive Decl
  | Class (c : ShallowClassModel)
  | Fun
  | Typedef
  | Const
  | Record

/-- Modelled from the spec: the shallow declaration table `Decls` (external
`direct_decl_parser` crate) maps fully-qualified names to declarations;
later writes may overwrite, which prepending models. -/
abbrev Decls := List (Str × Decl)

/-- `Decls::add`. -/
def declsAdd (d : Decls) (name : Str) (decl : Decl) : Decls := (name, decl) :: d

/-- `make_classish_declaration`, modelling the name-validation dispatch, the
kind/modifier resolution, the body check, and the table insertion keyed by
the elaborated name (returning the reduced node and the updated table).
The member assembly populating the remaining `ShallowClass` fields is elided
(see `ShallowClassModel`); the classish-name-builder reset and the
type-parameter-stack pop on the success path touch neither the returned
node nor the table. -/
def make_classish_declaration (nsb : NamespaceBuilder) (decls : Decls)
    (_attributes modifiers xhp_keyword class_keyword name _tparams
      _extends_keyword _extends _implements_keyword _implements
      where_clause body : Node) : Node × Decls :=
  match expect_name name with
  | none => (Node.Ignored .ClassishDeclaration, decls)
  | some (_, raw_name) =>
    match elaborate_defined_id nsb name with
    | none => (Node.Ignored .ClassishDeclaration, decls)
    | some (pos, name') =>
      let is_xhp := strStartsWith raw_name ":".toList || xhp_keyword.is_present
      let class_kind0 : ClassishKind :=
        match class_keyword.token_kind with
        | some .Interface => ClassishKind.Cinterface
        | some .Trait => ClassishKind.Ctrait
        | _ => ClassishKind.Cclass .Concrete
      let class_kind := if modifiers.iterList.any (fun m => m.is_token .Abstract)
        then (match class_kind0 with
          | ClassishKind.Cclass _ => ClassishKind.Cclass .Abstract
          | k => k)
        else class_kind0
      let final_ := modifiers.iterList.any (fun m => m.is_token .Final)
      let where_constraints := where_clause.iterList.filterMap (fun x =>
        match x with
        | Node.WhereConstraintNode wc => some wc
        | _ => none)
      match body with
      | Node.ClassishBody _ =>
        let cls : ShallowClassModel :=
          { final_ := final_
            is_xhp := is_xhp
            has_xhp_keyword := xhp_keyword.is_token .XHP
            kind := class_kind
            name := (pos, name')
            where_constraints := where_constraints }
        (Node.Ignored .ClassishDeclaration, declsAdd decls name' (Decl.Class cls))
      | _ => (Node.Ignored .ClassishDeclaration, decls)

/-- C5: when the name child of a classish declaration is malformed (not a
name, XHP name, or qualified name node), the finalization callback returns
`Ignored(ClassishDeclaration)` and the declaration table is unchanged — no
entry is added and no partial entry is emitted (the function is total, so
processing continues). -/
theorem make_classish_declaration_malformed_name
    (nsb : NamespaceBuilder) (decls : Decls)
    (attributes modifiers xhp_keyword class_keyword name tparams ek ex ik im
      where_clause body : Node)
    (h1 : ∀ s p, name ≠ Node.Name s p)
    (h2 : ∀ s p, name ≠ Node.XhpName s p)
    (h3 : ∀ ps p, name ≠ Node.QualifiedName ps p) :
    make_classish_declaration nsb decls attributes modifiers xhp_keyword
      class_keyword name tparams ek ex ik im where_clause body
      = (Node.Ignored .ClassishDeclaration, decls) := by
  cases name with
  | Name s p => exact absurd rfl (h1 s p)
  | XhpName s p => exact absurd rfl (h2 s p)
  | QualifiedName ps p => exact absurd rfl (h3 ps p)
  | Token k pos text => cases k <;> rfl
  | Ignored k => rfl
  | List c => rfl
  | BracketedList a b c => rfl
  | Variable s p => rfl
  | StringLiteral s p => rfl
  | IntLiteral s p => rfl
  | FloatingLiteral s p => rfl
  | BooleanLiteral s p => rfl
  | TyNode t => rfl
  | ListItem f s => rfl
  | Attribute a => rfl
  | ClassishBody es => rfl
  | WhereConstraintNode wc => rfl

/-- Witness for C5: a classish declaration whose name child is a missing
(`Ignored`) node adds nothing to a table that already holds one entry. -/
theorem make_classish_declaration_malformed_name_witness :
    make_classish_declaration (NamespaceBuilder.new_in [] [] [] false)
      [("C".toList, Decl.Fun)]
      (Node.Ignored .Missing) (Node.Ignored .Missing) (Node.Ignored .Missing)
      (Node.Token .Class Pos.none_ "class".toList) (Node.Ignored .Missing)
      (Node.Ignored .Missing) (Node.Ignored .Missing) (Node.Ignored .Missing)
      (Node.Ignored .Missing) (Node.Ignored .Missing) (Node.Ignored .Missing)
      (Node.ClassishBody [])
      = (Node.Ignored .ClassishDeclaration, [("C".toList, Decl.Fun)]) :=
  make_classish_declaration_malformed_name
    (NamespaceBuilder.new_in [] [] [] false) [("C".toList, Decl.Fun)]
    (Node.Ignored .Missing) (Node.Ignored .Missing) (Node.Ignored .Missing)
    (Node.Token .Class Pos.none_ "class".toList) (Node.Ignored .Missing)
    (Node.Ignored .Missing) (Node.Ignored .Missing) (Node.Ignored .Missing)
    (Node.Ignored .Missing) (Node.Ignored .Missing) (Node.Ignored .Missing)
    (Node.ClassishBody [])
    (fun _ _ h => Node.noConfusion h)
    (fun _ _ h => Node.noConfusion h)
    (fun _ _ h => Node.noConfusion h)

/-- `?H $g` (an option-wrapped parameter type) for the C1 counterexample. -/
def optH : Ty :=
  Ty.mk (.hint (Pos.mk 1 2))
    (.Toption (Ty.mk (.hint (Pos.mk 1 2)) (.Tapply (Pos.mk 1 2, "H".toList) [])))

def optHParam : FunParam :=
  FunParam.mk (Pos.mk 3 4) (some "$g".toList) (PossiblyEnforcedTy.mk .Unenforced optH) 0

/-- C1 counterexample: for `function f(?H $g)[$g::C]` the parameter's
declared type `G = ?H` is not a type parameter of the function, yet the
rewriter does **not** rewrite `$g`'s declared type to the bare generic
reference `T/$g` — it preserves the option wrapper (`?T/$g`) and bounds
`T/$g` by the unwrapped `H` rather than by `G`. -/
theorem rewrite_effect_polymorphism_dependent_context_counterexample :
    (rewrite_effect_polymorphism [optHParam] []
        (FunImplicitParams.mk (.CapTy (Ty.mk (.hint (Pos.mk 9 10))
          (.Taccess (Ty.mk (.hint (Pos.mk 5 6)) (.Tapply (Pos.mk 5 6, "$g".toList) []))
            (Pos.mk 7 8, "C".toList))))) []).1
      = [FunParam.mk (Pos.mk 3 4) (some "$g".toList)
          (PossiblyEnforcedTy.mk .Unenforced
            (Ty.mk (.hint (Pos.mk 1 2))
              (.Toption (Ty.mk (.hint (Pos.mk 3 4))
                (.Tgeneric ("T/".toList ++ "$g".toList) []))))) 0] ∧
    (rewrite_effect_polymorphism [optHParam] []
        (FunImplicitParams.mk (.CapTy (Ty.mk (.hint (Pos.mk 9 10))
          (.Taccess (Ty.mk (.hint (Pos.mk 5 6)) (.Tapply (Pos.mk 5 6, "$g".toList) []))
            (Pos.mk 7 8, "C".toList))))) []).1
      ≠ [FunParam.mk (Pos.mk 3 4) (some "$g".toList)
          (PossiblyEnforcedTy.mk .Unenforced
            (Ty.mk (.hint (Pos.mk 3 4))
              (.Tgeneric ("T/".toList ++ "$g".toList) []))) 0] := by
  refine ⟨rfl, ?_⟩
  rw [show (rewrite_effect_polymorphism [optHParam] []
        (FunImplicitParams.mk (.CapTy (Ty.mk (.hint (Pos.mk 9 10))
          (.Taccess (Ty.mk (.hint (Pos.mk 5 6)) (.Tapply (Pos.mk 5 6, "$g".toList) []))
            (Pos.mk 7 8, "C".toList))))) []).1
      = [FunParam.mk (Pos.mk 3 4) (some "$g".toList)
          (PossiblyEnforcedTy.mk .Unenforced
            (Ty.mk (.hint (Pos.mk 1 2))
              (.Toption (Ty.mk (.hint (Pos.mk 3 4))
                (.Tgeneric ("T/".toList ++ "$g".toList) []))))) 0] from rfl]
  intro h
  simp at h
